import Mathlib

/-!
Verification of the Unicode TR29 segmentation and case folding engine of
the repository (src/src/unicode.c).

The engine operates on a text, modelled here as a `List Nat` of Unicode
scalar values, and on per-algorithm category bitmasks produced by table
driven classifier functions (`grapheme_category`, `word_category`,
`sentence_category`, `category_category`).  The classifier tables live in
the generated file `_unicodedb.c`, which is not part of the source tree
under verification; every definition below is therefore parametrised by a
classifier `cat : Nat → Mask`, and where a concrete table is needed it is
modelled from the specification (UCD data), marked as such.

All loops of the C code are embedded as structurally recursive functions
on an explicit fuel argument; the entry points pass `text.length + 1`
fuel, which is enough because every loop iteration strictly advances the
iterator position (this is proved below).
-/

set_option maxHeartbeats 1000000

namespace Apsw

/-- Category bitmask: an unsigned 32-bit value in the C code, a plain `Nat`
here (all mask operations stay below `2 ^ 32`). -/
abbrev Mask := Nat

/-- TextIterator from unicode.c: position, category mask of the current
character, category mask of the lookahead character, a one-level save slot
for rule backtracking, plus the debug-build transaction flag
(`in_transaction`).  The `bad` field is the embedding of the debug
assertions in `it_begin` / `it_commit` / `it_rollback`: it becomes (and
stays) `true` exactly when an assertion would have fired. -/
structure TextIterator where
  pos : Nat
  curchar : Mask
  lookahead : Mask
  in_transaction : Bool
  bad : Bool
  savedPos : Nat
  savedCurchar : Mask
  savedLookahead : Mask
deriving Repr, DecidableEq

/-- Category of the scalar at index `p`, or `0` one past the end: the
C expression `(p == text_end) ? 0 : cat_func(PyUnicode_READ(..., p))`. -/
def catAt (cat : Nat → Mask) (text : List Nat) (p : Nat) : Mask :=
  if p = text.length then 0 else cat (text.getD p 0)

/-- TEXT_INIT: `pos = offset`, `curchar = 0`, lookahead classified at
`offset` (or `0` at the end).  No transaction is open. -/
def textInit (cat : Nat → Mask) (text : List Nat) (offset : Nat) : TextIterator :=
  { pos := offset, curchar := 0, lookahead := catAt cat text offset,
    in_transaction := false, bad := false,
    savedPos := 0, savedCurchar := 0, savedLookahead := 0 }

/-- it_advance: accept the lookahead as curchar, step the position, refresh
the lookahead. -/
def it_advance (cat : Nat → Mask) (text : List Nat) (it : TextIterator) : TextIterator :=
  { it with curchar := it.lookahead, pos := it.pos + 1,
            lookahead := catAt cat text (it.pos + 1) }

/-- it_has_accepted: at least one character accepted since construction at
`offset` (the first advance sets `pos = offset + 1`, hence the `+ 1`). -/
def it_has_accepted (offset : Nat) (it : TextIterator) : Bool :=
  offset + 1 < it.pos

/-- Inner loop of it_absorb: `while (it.lookahead & (extend)) it_advance();`. -/
def extendGo (cat : Nat → Mask) (text : List Nat) (e : Mask) :
    Nat → TextIterator → TextIterator
  | 0, it => it
  | fuel + 1, it =>
    if it.lookahead &&& e ≠ 0 then
      extendGo cat text e fuel (it_advance cat text it)
    else it

/-- Outer loop of it_absorb: while the lookahead matches `m`, advance and
then drain the `e`-extend run. -/
def absorbGo (cat : Nat → Mask) (text : List Nat) (m e : Mask) :
    Nat → TextIterator → TextIterator
  | 0, it => it
  | fuel + 1, it =>
    if it.lookahead &&& m ≠ 0 then
      absorbGo cat text m e fuel
        (extendGo cat text e (text.length + 1) (it_advance cat text it))
    else it

/-- it_absorb(match, extend): absorb a run of `m` (each followed by an
`e`-extend run); crucially `curchar` keeps its pre-absorb value. -/
def it_absorb (cat : Nat → Mask) (text : List Nat) (m e : Mask) (it : TextIterator) :
    TextIterator :=
  if it.lookahead &&& m ≠ 0 then
    { absorbGo cat text m e (text.length + 1) it with curchar := it.curchar }
  else it

/-- it_begin: snapshot `(pos, curchar, lookahead)` and open the transaction.
The debug build asserts that no transaction is already open; `bad` records
a violation. -/
def it_begin (it : TextIterator) : TextIterator :=
  { it with bad := it.bad || it.in_transaction,
            savedPos := it.pos, savedCurchar := it.curchar,
            savedLookahead := it.lookahead,
            in_transaction := true }

/-- it_commit: drop the snapshot.  The debug build asserts a transaction is
open. -/
def it_commit (it : TextIterator) : TextIterator :=
  { it with bad := it.bad || !it.in_transaction, in_transaction := false }

/-- it_rollback: restore `(pos, curchar, lookahead)` from the snapshot.
The debug build asserts a transaction is open. -/
def it_rollback (it : TextIterator) : TextIterator :=
  { it with bad := it.bad || !it.in_transaction,
            pos := it.savedPos, curchar := it.savedCurchar,
            lookahead := it.savedLookahead,
            in_transaction := false }

/-- Outcome of one iteration of a `while (it.pos < text_end)` engine body:
`inl` returns from the function (a break), `inr` loops (a continue). -/
abbrev StepResult := Sum TextIterator TextIterator

/-- Shared loop skeleton of the three engines: while the position is inside
the text, run the rule body; a body `inl` breaks out of the loop, `inr`
continues.  Fuel is consumed once per iteration. -/
def runLoop (text : List Nat) (body : TextIterator → StepResult) :
    Nat → TextIterator → TextIterator
  | 0, it => it
  | fuel + 1, it =>
    if it.pos < text.length then
      match body it with
      | .inl itb => itb
      | .inr itc => runLoop text body fuel itc
    else it

/-- Grapheme cluster break categories.  The single-bit constants are
modelled from the spec (section 3 lists the required names; the generated
`_unicodedb.c` with the concrete values is not part of the sources); the
particular bit positions are irrelevant, only their distinctness. -/
def GC_Control : Mask := 1
def GC_CR : Mask := 2
def GC_LF : Mask := 4
def GC_Extend : Mask := 8
def GC_ZWJ : Mask := 16
def GC_Regional_Indicator : Mask := 32
def GC_Prepend : Mask := 64
def GC_SpacingMark : Mask := 128
def GC_L : Mask := 256
def GC_V : Mask := 512
def GC_T : Mask := 1024
def GC_LV : Mask := 2048
def GC_LVT : Mask := 4096
def GC_Extended_Pictographic : Mask := 8192
def GC_InCB_Linker : Mask := 16384
def GC_InCB_Consonant : Mask := 32768
def GC_InCB_Extend : Mask := 65536

/-- Scan loop of rule GB9c: advance over `InCB_Extend | InCB_Linker`
lookaheads, remembering whether an `InCB_Linker` was seen. -/
def gb9cScan (cat : Nat → Mask) (text : List Nat) :
    Nat → Bool → TextIterator → Bool × TextIterator
  | 0, seen, it => (seen, it)
  | fuel + 1, seen, it =>
    if it.lookahead &&& (GC_InCB_Extend ||| GC_InCB_Linker) ≠ 0 then
      gb9cScan cat text fuel (seen || (it.lookahead &&& GC_InCB_Linker ≠ 0))
        (it_advance cat text it)
    else (seen, it)

/-- Rule GB9c (Indic Conjunct Break), the transactional block of
grapheme_next_break: `inl` is the committed continue, `inr` the state after
fallthrough (rolled back, or the rule was not entered). -/
def gb9cTry (cat : Nat → Mask) (text : List Nat) (it : TextIterator) : StepResult :=
  if it.curchar &&& GC_InCB_Consonant ≠ 0 ∧
     it.lookahead &&& (GC_InCB_Extend ||| GC_InCB_Linker) ≠ 0 then
    let it1 := it_begin it
    let seen0 := it1.lookahead &&& GC_InCB_Linker ≠ 0
    let r := gb9cScan cat text (text.length + 1) seen0 (it_advance cat text it1)
    if r.1 ∧ r.2.lookahead &&& GC_InCB_Consonant ≠ 0 then .inl (it_commit r.2)
    else .inr (it_rollback r.2)
  else .inr it

/-- Rule GB11 (emoji ZWJ sequences), the transactional block of
grapheme_next_break. -/
def gb11Try (cat : Nat → Mask) (text : List Nat) (it : TextIterator) : StepResult :=
  if it.curchar &&& GC_Extended_Pictographic ≠ 0 ∧
     it.lookahead &&& (GC_Extend ||| GC_ZWJ) ≠ 0 then
    let it1 := extendGo cat text GC_Extend (text.length + 1) (it_begin it)
    if it1.lookahead &&& GC_ZWJ ≠ 0 then
      let it2 := it_advance cat text it1
      if it2.lookahead &&& GC_Extended_Pictographic ≠ 0 then .inl (it_commit it2)
      else .inr (it_rollback it2)
    else .inr (it_rollback it1)
  else .inr it

/-- Body of the grapheme_next_break loop: the loop-top it_advance followed
by rules GB3, GB4/GB5, GB6, GB7, GB8, GB9a, GB9b, GB9c, GB11, GB9, GB12 and
GB999 in source order. -/
def graphemeBody (cat : Nat → Mask) (text : List Nat) (offset : Nat)
    (it0 : TextIterator) : StepResult :=
  let it := it_advance cat text it0
  if it.curchar &&& GC_CR ≠ 0 ∧ it.lookahead &&& GC_LF ≠ 0 then
    .inl { it with pos := it.pos + 1 }
  else if it.curchar &&& (GC_Control ||| GC_CR ||| GC_LF) ≠ 0 then
    .inl (if it_has_accepted offset it then { it with pos := it.pos - 1 } else it)
  else if it.curchar &&& GC_L ≠ 0 ∧
          it.lookahead &&& (GC_L ||| GC_V ||| GC_LV ||| GC_LVT) ≠ 0 then .inr it
  else if it.curchar &&& (GC_LV ||| GC_V) ≠ 0 ∧
          it.lookahead &&& (GC_V ||| GC_T) ≠ 0 then .inr it
  else if it.curchar &&& (GC_LVT ||| GC_T) ≠ 0 ∧ it.lookahead &&& GC_T ≠ 0 then .inr it
  else if it.lookahead &&& GC_SpacingMark ≠ 0 then .inr it
  else if it.curchar &&& GC_Prepend ≠ 0 then .inr it
  else match gb9cTry cat text it with
  | .inl it' => .inr it'
  | .inr it1 =>
    match gb11Try cat text it1 with
    | .inl it' => .inr it'
    | .inr it2 =>
      if it2.lookahead &&& (GC_Extend ||| GC_ZWJ) ≠ 0 then .inr it2
      else if it2.curchar &&& GC_Regional_Indicator ≠ 0 ∧
              it2.lookahead &&& GC_Regional_Indicator ≠ 0 then
        let it3 := it_advance cat text it2
        if it3.lookahead &&& (GC_Extend ||| GC_ZWJ ||| GC_InCB_Extend) ≠ 0 then .inr it3
        else .inl it3
      else .inl it2

/-- grapheme_next_break, returning the whole final iterator (the C function
returns `it.pos`; the other fields are kept so the transaction discipline
can be stated). -/
def grapheme_next_break_full (cat : Nat → Mask) (text : List Nat) (offset : Nat) :
    TextIterator :=
  runLoop text (graphemeBody cat text offset) (text.length + 1)
    (textInit cat text offset)

/-- grapheme_next_break(text, offset) from unicode.c. -/
def grapheme_next_break (cat : Nat → Mask) (text : List Nat) (offset : Nat) : Nat :=
  (grapheme_next_break_full cat text offset).pos

/-- Word break categories, modelled from the spec like the grapheme ones. -/
def WC_CR : Mask := 1
def WC_LF : Mask := 2
def WC_Newline : Mask := 4
def WC_Extend : Mask := 8
def WC_ZWJ : Mask := 16
def WC_Regional_Indicator : Mask := 32
def WC_Format : Mask := 64
def WC_Katakana : Mask := 128
def WC_Hebrew_Letter : Mask := 256
def WC_ALetter : Mask := 512
def WC_Single_Quote : Mask := 1024
def WC_Double_Quote : Mask := 2048
def WC_MidNumLet : Mask := 4096
def WC_MidLetter : Mask := 8192
def WC_MidNum : Mask := 16384
def WC_Numeric : Mask := 32768
def WC_ExtendNumLet : Mask := 65536
def WC_WSegSpace : Mask := 131072
def WC_Extended_Pictographic : Mask := 262144

/-- AHLetter alias from the spec, as in unicode.c. -/
def AHLetter : Mask := WC_ALetter ||| WC_Hebrew_Letter

/-- MidNumLetQ alias from the spec, as in unicode.c. -/
def MidNumLetQ : Mask := WC_MidNumLet ||| WC_Single_Quote

/-- Lookahead variant of rule WB3c: `× ZWJ Extended_Pictographic`
(transactional). -/
def wbZWJTry (cat : Nat → Mask) (text : List Nat) (it : TextIterator) : StepResult :=
  if it.lookahead &&& WC_ZWJ ≠ 0 then
    let it1 := it_advance cat text (it_begin it)
    if it1.lookahead &&& WC_Extended_Pictographic ≠ 0 then
      .inl (it_commit (it_advance cat text it1))
    else .inr (it_rollback it1)
  else .inr it

/-- Inner loop of rule WB4: drain a transparent `Extend | ZWJ | Format` run;
when a ZWJ inside the run is directly followed by Extended_Pictographic the
C code jumps back to the loop top (`inl` here), without restoring curchar. -/
def wb4Go (cat : Nat → Mask) (text : List Nat) :
    Nat → TextIterator → StepResult
  | 0, it => .inr it
  | fuel + 1, it =>
    if it.lookahead &&& (WC_Extend ||| WC_ZWJ ||| WC_Format) ≠ 0 then
      if it.lookahead &&& WC_ZWJ ≠ 0 then
        let it1 := it_advance cat text it
        if it1.lookahead &&& WC_Extended_Pictographic ≠ 0 then .inl it1
        else wb4Go cat text fuel it1
      else wb4Go cat text fuel (it_advance cat text it)
    else .inr it

/-- Rules WB6/WB7: `AHLetter × (MidLetter | MidNumLetQ)` continues iff an
AHLetter follows after a transparent run (transactional). -/
def wb67Try (cat : Nat → Mask) (text : List Nat) (it : TextIterator) : StepResult :=
  if it.curchar &&& AHLetter ≠ 0 ∧ it.lookahead &&& (WC_MidLetter ||| MidNumLetQ) ≠ 0 then
    let it1 := it_absorb cat text (WC_Extend ||| WC_Format ||| WC_ZWJ) 0
      (it_advance cat text (it_begin it))
    if it1.lookahead &&& AHLetter ≠ 0 then .inl (it_commit it1)
    else .inr (it_rollback it1)
  else .inr it

/-- Rules WB7b/WB7c: `Hebrew_Letter × Double_Quote` continues iff a
Hebrew_Letter follows (transactional). -/
def wb7bcTry (cat : Nat → Mask) (text : List Nat) (it : TextIterator) : StepResult :=
  if it.curchar &&& WC_Hebrew_Letter ≠ 0 ∧ it.lookahead &&& WC_Double_Quote ≠ 0 then
    let it1 := it_advance cat text (it_begin it)
    if it1.lookahead &&& WC_Hebrew_Letter ≠ 0 then .inl (it_commit it1)
    else .inr (it_rollback it1)
  else .inr it

/-- Rules WB11/WB12: `Numeric × (MidNum | MidNumLetQ)` continues iff a
Numeric follows after a transparent run (transactional). -/
def wb1112Try (cat : Nat → Mask) (text : List Nat) (it : TextIterator) : StepResult :=
  if it.curchar &&& WC_Numeric ≠ 0 ∧ it.lookahead &&& (WC_MidNum ||| MidNumLetQ) ≠ 0 then
    let it1 := it_absorb cat text (WC_Extend ||| WC_Format ||| WC_ZWJ) 0
      (it_advance cat text (it_begin it))
    if it1.lookahead &&& WC_Numeric ≠ 0 then .inl (it_commit it1)
    else .inr (it_rollback it1)
  else .inr it

/-- Body of the word_next_break loop: the loop-top it_advance followed by
rules WB3, WB3a/b, WB3c (and its lookahead variant), WB3d, WB4, WB5, WB6/7,
WB7a, WB7b/c, WB8, WB9, WB10, WB11/12, WB13, WB13a, WB13b, WB15/16 and
WB999 in source order.  The C `goto loop_top` inside WB4 fires only when
the lookahead is nonzero, hence the position is inside the text and
re-entering through the loop guard (a continue, `inr`) is equivalent. -/
def wordBody (cat : Nat → Mask) (text : List Nat) (offset : Nat)
    (it0 : TextIterator) : StepResult :=
  let it := it_advance cat text it0
  if it.curchar &&& WC_CR ≠ 0 ∧ it.lookahead &&& WC_LF ≠ 0 then
    .inl { it with pos := it.pos + 1 }
  else if it.curchar &&& (WC_Newline ||| WC_CR ||| WC_LF) ≠ 0 then
    .inl (if it_has_accepted offset it then { it with pos := it.pos - 1 } else it)
  else if it.curchar &&& WC_ZWJ ≠ 0 ∧ it.lookahead &&& WC_Extended_Pictographic ≠ 0 then
    .inr it
  else match wbZWJTry cat text it with
  | .inl it' => .inr it'
  | .inr it1 =>
    if it1.curchar &&& WC_WSegSpace ≠ 0 ∧ it1.lookahead &&& WC_WSegSpace ≠ 0 then .inr it1
    else match wb4Go cat text (text.length + 1) it1 with
    | .inl itg => .inr itg
    | .inr itw =>
      let it2 := { itw with curchar := it1.curchar }
      if it2.curchar &&& AHLetter ≠ 0 ∧ it2.lookahead &&& AHLetter ≠ 0 then .inr it2
      else match wb67Try cat text it2 with
      | .inl it' => .inr it'
      | .inr it3 =>
        if it3.curchar &&& WC_Hebrew_Letter ≠ 0 ∧ it3.lookahead &&& WC_Single_Quote ≠ 0 then
          .inr it3
        else match wb7bcTry cat text it3 with
        | .inl it' => .inr it'
        | .inr it4 =>
          if it4.curchar &&& WC_Numeric ≠ 0 ∧ it4.lookahead &&& WC_Numeric ≠ 0 then .inr it4
          else if it4.curchar &&& AHLetter ≠ 0 ∧ it4.lookahead &&& WC_Numeric ≠ 0 then .inr it4
          else if it4.curchar &&& WC_Numeric ≠ 0 ∧ it4.lookahead &&& AHLetter ≠ 0 then .inr it4
          else match wb1112Try cat text it4 with
          | .inl it' => .inr it'
          | .inr it5 =>
            if it5.curchar &&& WC_Katakana ≠ 0 ∧ it5.lookahead &&& WC_Katakana ≠ 0 then .inr it5
            else if it5.curchar &&& (AHLetter ||| WC_Numeric ||| WC_Katakana ||| WC_ExtendNumLet) ≠ 0 ∧
                    it5.lookahead &&& WC_ExtendNumLet ≠ 0 then .inr it5
            else if it5.curchar &&& WC_ExtendNumLet ≠ 0 ∧
                    it5.lookahead &&& (AHLetter ||| WC_Numeric ||| WC_Katakana) ≠ 0 then .inr it5
            else if it5.curchar &&& WC_Regional_Indicator ≠ 0 ∧
                    it5.lookahead &&& WC_Regional_Indicator ≠ 0 then
              .inl (it_absorb cat text (WC_Extend ||| WC_ZWJ ||| WC_Format) 0
                (it_advance cat text it5))
            else .inl it5

/-- word_next_break, returning the whole final iterator. -/
def word_next_break_full (cat : Nat → Mask) (text : List Nat) (offset : Nat) :
    TextIterator :=
  runLoop text (wordBody cat text offset) (text.length + 1) (textInit cat text offset)

/-- word_next_break(text, offset) from unicode.c. -/
def word_next_break (cat : Nat → Mask) (text : List Nat) (offset : Nat) : Nat :=
  (word_next_break_full cat text offset).pos

/-- Sentence break categories, modelled from the spec like the grapheme
ones. -/
def SC_CR : Mask := 1
def SC_LF : Mask := 2
def SC_Extend : Mask := 4
def SC_Sep : Mask := 8
def SC_Format : Mask := 16
def SC_Sp : Mask := 32
def SC_Lower : Mask := 64
def SC_Upper : Mask := 128
def SC_OLetter : Mask := 256
def SC_Numeric : Mask := 512
def SC_ATerm : Mask := 1024
def SC_SContinue : Mask := 2048
def SC_STerm : Mask := 4096
def SC_Close : Mask := 8192

/-- ParaSep alias from the spec, as in unicode.c. -/
def ParaSep : Mask := SC_Sep ||| SC_CR ||| SC_LF

/-- SATerm alias from the spec, as in unicode.c. -/
def SATerm : Mask := SC_STerm ||| SC_ATerm

/-- Rule SB7: `(Upper | Lower) ATerm × Upper` continues (transactional). -/
def sb7Try (cat : Nat → Mask) (text : List Nat) (it : TextIterator) : StepResult :=
  if it.curchar &&& (SC_Upper ||| SC_Lower) ≠ 0 ∧ it.lookahead &&& SC_ATerm ≠ 0 then
    let it1 := it_absorb cat text (SC_Format ||| SC_Extend) 0
      (it_advance cat text (it_begin it))
    if it1.lookahead &&& SC_Upper ≠ 0 then .inl (it_commit it1)
    else .inr (it_rollback it1)
  else .inr it

/-- Rule SB8: after ATerm, `Close* Sp*` and a run of anything that is not
`OLetter | Upper | Lower | ParaSep | SATerm`, a following Lower continues
(transactional). -/
def sb8Try (cat : Nat → Mask) (text : List Nat) (it : TextIterator) : StepResult :=
  if it.curchar &&& SC_ATerm ≠ 0 then
    let it1 := it_absorb cat text SC_Close (SC_Format ||| SC_Extend) (it_begin it)
    let it2 := it_absorb cat text SC_Sp (SC_Format ||| SC_Extend) it1
    let it3 := it_absorb cat text
      (0xFFFFFFFF ^^^ SC_OLetter ^^^ SC_Upper ^^^ SC_Lower ^^^ ParaSep ^^^ SATerm) 0 it2
    let it4 := it_absorb cat text (SC_Format ||| SC_Extend) 0 it3
    if it4.lookahead &&& SC_Lower ≠ 0 then
      .inl (it_commit (it_absorb cat text (SC_Format ||| SC_Extend) 0 it4))
    else .inr (it_rollback it4)
  else .inr it

/-- Rule SB8a: `SATerm Close* Sp* × (SContinue | SATerm)` continues
(transactional). -/
def sb8aTry (cat : Nat → Mask) (text : List Nat) (it : TextIterator) : StepResult :=
  if it.curchar &&& SATerm ≠ 0 then
    let it1 := it_absorb cat text SC_Close (SC_Format ||| SC_Extend) (it_begin it)
    let it2 := it_absorb cat text SC_Sp (SC_Format ||| SC_Extend) it1
    if it2.lookahead &&& (SC_SContinue ||| SATerm) ≠ 0 then
      .inl (it_commit (it_absorb cat text (SC_Format ||| SC_Extend) 0
        (it_advance cat text it2)))
    else .inr (it_rollback it2)
  else .inr it

/-- Body of the sentence_next_break loop: the loop-top it_advance followed
by rules SB3, SB4, SB5, SB6, SB7, SB8, SB8a, SB9/SB10/SB11 and SB999
(continue by default) in source order. -/
def sentenceBody (cat : Nat → Mask) (text : List Nat)
    (it0 : TextIterator) : StepResult :=
  let ita := it_advance cat text it0
  if ita.curchar &&& SC_CR ≠ 0 ∧ ita.lookahead &&& SC_LF ≠ 0 then
    .inl (it_advance cat text ita)
  else if ita.curchar &&& ParaSep ≠ 0 then .inl ita
  else
    let it := it_absorb cat text (SC_Format ||| SC_Extend) 0 ita
    if it.curchar &&& SC_ATerm ≠ 0 ∧ it.lookahead &&& SC_Numeric ≠ 0 then .inr it
    else match sb7Try cat text it with
    | .inl it' => .inr it'
    | .inr it1 =>
      match sb8Try cat text it1 with
      | .inl it' => .inr it'
      | .inr it2 =>
        match sb8aTry cat text it2 with
        | .inl it' => .inr it'
        | .inr it3 =>
          if it3.curchar &&& SATerm ≠ 0 then
            let it4 := it_absorb cat text SC_Sp (SC_Format ||| SC_Extend)
              (it_absorb cat text SC_Close (SC_Format ||| SC_Extend) it3)
            if it4.lookahead &&& ParaSep ≠ 0 then .inr it4
            else .inl it4
          else .inr it3

/-- sentence_next_break, returning the whole final iterator. -/
def sentence_next_break_full (cat : Nat → Mask) (text : List Nat) (offset : Nat) :
    TextIterator :=
  runLoop text (sentenceBody cat text) (text.length + 1) (textInit cat text offset)

/-- sentence_next_break(text, offset) from unicode.c. -/
def sentence_next_break (cat : Nat → Mask) (text : List Nat) (offset : Nat) : Nat :=
  (sentence_next_break_full cat text offset).pos

/-- Loop of has_category: `while (start < end)`, testing the general
category of each scalar against the mask.  The counter argument is the
number of remaining iterations, `end - start`. -/
def hasCatGo (catcat : Nat → Mask) (text : List Nat) (mask : Nat) :
    Nat → Nat → Bool
  | _, 0 => false
  | start, n + 1 =>
    if catcat (text.getD start 0) &&& mask ≠ 0 then true
    else hasCatGo catcat text mask (start + 1) n

/-- has_category(text, start, end, mask) from unicode.c, parametrised by
the general category classifier `category_category` of `_unicodedb.c`. -/
def has_category (catcat : Nat → Mask) (text : List Nat) (start e : Nat)
    (mask : Nat) : Bool :=
  hasCatGo catcat text mask start (e - start)

/-- Test for an ASCII uppercase letter, the C `c >= 'A' && c <= 'Z'`. -/
def isUpperAscii (c : Nat) : Bool := decide (65 ≤ c ∧ c ≤ 90)

/-- casefold_ascii from unicode.c: scan for an uppercase ASCII letter; if
none, return the input itself, otherwise map `A..Z` to `a..z`. -/
def casefold_ascii (text : List Nat) : List Nat :=
  if text.all (fun c => !isUpperAscii c) then text
  else text.map (fun c => if isUpperAscii c then c + 32 else c)

/-- Per-character fold of the general casefold path: the ASCII shortcut
maps `A..Z` to `a..z`, anything else goes through the generated
CASEFOLD_WRITE table, modelled by the parameter `fold1` (identity is
`fold1 c = [c]`). -/
def foldChar (fold1 : Nat → List Nat) (c : Nat) : List Nat :=
  if isUpperAscii c then [c + 32] else fold1 c

/-- casefold from unicode.c.  The ASCII fast path fires when every scalar
is `≤ 0x7F` (in CPython a string of kind ASCII); the general path first
detects whether anything changes (first pass, CASEFOLD_EXPANSION) and
returns the input unchanged if not, otherwise produces the concatenation
of the per-character folds (second pass, CASEFOLD_WRITE).  The expansion
count and the U+00B5 max-scalar bookkeeping of the C code size the
allocation only and do not affect the scalar sequence produced. -/
def casefold (fold1 : Nat → List Nat) (text : List Nat) : List Nat :=
  if text.all (fun c => decide (c ≤ 127)) then casefold_ascii text
  else if text.all (fun c => decide (foldChar fold1 c = [c])) then text
  else (text.map (foldChar fold1)).flatten

/-- Loop of grapheme_length: count breaks from `offset` to the end. -/
def graphemeLenGo (cat : Nat → Mask) (text : List Nat) :
    Nat → Nat → Nat → Nat
  | 0, _, count => count
  | fuel + 1, offset, count =>
    if offset < text.length then
      graphemeLenGo cat text fuel (grapheme_next_break cat text offset) (count + 1)
    else count

/-- grapheme_length(text, offset) from unicode.c. -/
def grapheme_length (cat : Nat → Mask) (text : List Nat) (offset : Nat) : Nat :=
  graphemeLenGo cat text (text.length + 1) offset 0

/-- PySlice_AdjustIndices for step 1 (a CPython collaborator): negative
indices count from the end, then both are clamped into `0..=length`. -/
def sliceAdjust (length : Nat) (i : Int) : Nat :=
  if i < 0 then (if i + length < 0 then 0 else (i + (length : Int)).toNat)
  else min i.toNat length

/-- PyUnicode_Substring(text, a, b): the scalars at indices `a ≤ i < b`. -/
def listSlice (l : List Nat) (a b : Nat) : List Nat := (l.drop a).take (b - a)

/-- Main loop of grapheme_substr: walk the grapheme boundaries, remember
the scalar offsets where the requested start/stop grapheme counts are
reached, and (on the negative-index path, `useOff`) accumulate the list of
all boundary offsets.  On the non-negative path the loop stops as soon as
the stop count is reached. -/
def substrLoop (cat : Nat → Mask) (text : List Nat) (start stop : Int)
    (useOff : Bool) :
    Nat → Nat → Nat → Nat → Nat → List Nat → Nat × Nat × List Nat
  | 0, _, _, so, eo, offs => (so, eo, offs)
  | fuel + 1, t_off, count, so, eo, offs =>
    if t_off < text.length then
      let t := grapheme_next_break cat text t_off
      let c := count + 1
      let offs' := if useOff then offs ++ [t] else offs
      let so' := if start = (c : Int) then t else so
      let eo' := if stop = (c : Int) then t else eo
      if stop = (c : Int) ∧ useOff = false then (so', eo', offs')
      else substrLoop cat text start stop useOff fuel t c so' eo' offs'
    else (so, eo, offs)

/-- grapheme_substr(text, start, stop) from unicode.c.  `start`/`stop` are
signed grapheme-cluster indices (the `None` defaults `0` and `len(text)`
are applied by the argument parser before this function runs). -/
def grapheme_substr (cat : Nat → Mask) (text : List Nat) (start stop : Int) :
    List Nat :=
  if start > (text.length : Int) ∨ start = stop ∨ stop = 0 ∨
     (0 < start ∧ 0 ≤ stop ∧ stop ≤ start) then []
  else
    let useOff := decide (start < 0 ∨ stop < 0)
    let so0 : Nat := if start = 0 then 0 else text.length
    let r := substrLoop cat text start stop useOff (text.length + 1) 0 0 so0
      text.length (if useOff then [0] else [])
    if useOff then
      let offsets := r.2.2
      let offlen := offsets.length - 1
      let s := sliceAdjust offlen start
      let e := sliceAdjust offlen stop
      if s < e then listSlice text (offsets.getD s 0) (offsets.getD e 0) else []
    else listSlice text r.1 r.2.1

/-- Modelled from the spec: the UCD SentenceBreak categories of the ASCII
characters (the generated table `_unicodedb.c` is not in the sources).
Uppercase letters are `Upper`, lowercase letters are `Lower`, FULL STOP is
`ATerm`, SPACE is `Sp`, CR and LF are `CR` and `LF`; the remaining ASCII
characters used here have no sentence category. -/
def sentenceCatAscii (c : Nat) : Mask :=
  if 65 ≤ c ∧ c ≤ 90 then SC_Upper
  else if 97 ≤ c ∧ c ≤ 122 then SC_Lower
  else if c = 46 then SC_ATerm
  else if c = 32 then SC_Sp
  else if c = 13 then SC_CR
  else if c = 10 then SC_LF
  else 0

/-- Scalar values of the text "Mr. Smith went home. He slept." of the
spec's sentence example. -/
def mrSmithText : List Nat :=
  [77, 114, 46, 32, 83, 109, 105, 116, 104, 32, 119, 101, 110, 116, 32,
   104, 111, 109, 101, 46, 32, 72, 101, 32, 115, 108, 101, 112, 116, 46]

/-- Boundary chain of a next-break function: iterate from `start` (the
claims start at `0`) collecting every boundary until `len` is reached. -/
def boundaryChain (f : Nat → Nat) (len : Nat) : Nat → Nat → List Nat
  | 0, start => [start]
  | fuel + 1, start =>
    if start < len then start :: boundaryChain f len fuel (f start)
    else [start]

/-- Concatenation of the half-open ranges between consecutive elements of
a boundary chain. -/
def chainRanges : List Nat → List Nat
  | [] => []
  | [_] => []
  | a :: b :: rest => List.range' a (b - a) ++ chainRanges (b :: rest)

/-- Following the spec's words on GB9c: the end of the run of
`InCB_Extend | InCB_Linker` characters starting at `p`. -/
def incbRunEnd (cat : Nat → Mask) (text : List Nat) : Nat → Nat → Nat
  | 0, p => p
  | fuel + 1, p =>
    if catAt cat text p &&& (GC_InCB_Extend ||| GC_InCB_Linker) ≠ 0 then
      incbRunEnd cat text fuel (p + 1)
    else p

/-- Following the spec's words on GB9c: some character of `p ≤ r < q` is an
`InCB_Linker`. -/
def incbLinkerIn (cat : Nat → Mask) (text : List Nat) (p q : Nat) : Prop :=
  ∃ r, r < q ∧ p ≤ r ∧ catAt cat text r &&& GC_InCB_Linker ≠ 0

/-- Iterated grapheme_next_break: `graphemeIter cat text o n` is the result
of `n` successive break calls starting from offset `o`. -/
def graphemeIter (cat : Nat → Mask) (text : List Nat) (o : Nat) : Nat → Nat
  | 0 => o
  | n + 1 => grapheme_next_break cat text (graphemeIter cat text o n)

/-- State invariant of the engines: the position is inside `0..=len` and
the lookahead field holds the category at the position. -/
abbrev Inv (cat : Nat → Mask) (text : List Nat) (it : TextIterator) : Prop :=
  it.pos ≤ text.length ∧ it.lookahead = catAt cat text it.pos

/-- Frame equality: the transaction bookkeeping fields (flags and save
slot) of `b` agree with those of `a`. -/
abbrev FrameEq (a b : TextIterator) : Prop :=
  b.in_transaction = a.in_transaction ∧ b.bad = a.bad ∧ b.savedPos = a.savedPos ∧
  b.savedCurchar = a.savedCurchar ∧ b.savedLookahead = a.savedLookahead

/-- Demonstration inputs for the GB9c rule: a Consonant at index 0, a
Linker at index 1, a Consonant at index 2, with the iterator looking at the
linker after having accepted the first consonant. -/
def gb9cDemoCat : Nat → Mask := fun c =>
  if c = 1 then GC_InCB_Consonant else if c = 2 then GC_InCB_Linker else 0

def gb9cDemoText : List Nat := [1, 2, 1]

def gb9cDemoIt : TextIterator :=
  { pos := 1, curchar := GC_InCB_Consonant, lookahead := GC_InCB_Linker,
    in_transaction := false, bad := false,
    savedPos := 0, savedCurchar := 0, savedLookahead := 0 }

theorem frameEq_refl (a : TextIterator) : FrameEq a a := ⟨rfl, rfl, rfl, rfl, rfl⟩

theorem frameEq_trans {a b c : TextIterator} (h1 : FrameEq a b) (h2 : FrameEq b c) :
    FrameEq a c := by
  obtain ⟨x1, x2, x3, x4, x5⟩ := h1
  obtain ⟨y1, y2, y3, y4, y5⟩ := h2
  exact ⟨y1.trans x1, y2.trans x2, y3.trans x3, y4.trans x4, y5.trans x5⟩

theorem and_ne_zero_left {a b : Nat} (h : a &&& b ≠ 0) : a ≠ 0 := by
  intro ha
  rw [ha, Nat.zero_and] at h
  exact h rfl

theorem catAt_length (cat : Nat → Mask) (text : List Nat) :
    catAt cat text text.length = 0 := by
  simp [catAt]

theorem pos_lt_of_lookahead {cat : Nat → Mask} {text : List Nat} {it : TextIterator}
    (h : Inv cat text it) (hne : it.lookahead ≠ 0) : it.pos < text.length := by
  rcases h with ⟨hle, hla⟩
  rcases Nat.lt_or_ge it.pos text.length with hlt | hge
  · exact hlt
  · exact absurd (hla.trans (by rw [Nat.le_antisymm hle hge, catAt_length])) hne

theorem it_advance_pos (cat : Nat → Mask) (text : List Nat) (it : TextIterator) :
    (it_advance cat text it).pos = it.pos + 1 := rfl

theorem inv_advance {cat : Nat → Mask} {text : List Nat} {it : TextIterator}
    (hlt : it.pos < text.length) : Inv cat text (it_advance cat text it) :=
  ⟨hlt, rfl⟩

theorem inv_advance_of_lookahead {cat : Nat → Mask} {text : List Nat} {it : TextIterator}
    (h : Inv cat text it) (hne : it.lookahead ≠ 0) :
    Inv cat text (it_advance cat text it) :=
  inv_advance (pos_lt_of_lookahead h hne)

theorem frameEq_advance (cat : Nat → Mask) (text : List Nat) (it : TextIterator) :
    FrameEq it (it_advance cat text it) := ⟨rfl, rfl, rfl, rfl, rfl⟩

theorem extendGo_spec (cat : Nat → Mask) (text : List Nat) (e : Mask) :
    ∀ fuel it, Inv cat text it →
      Inv cat text (extendGo cat text e fuel it) ∧
      it.pos ≤ (extendGo cat text e fuel it).pos ∧
      FrameEq it (extendGo cat text e fuel it) := by
  intro fuel
  induction fuel with
  | zero => exact fun it h => ⟨h, Nat.le_refl _, frameEq_refl it⟩
  | succ n ih =>
    intro it h
    by_cases hc : it.lookahead &&& e ≠ 0
    · rw [extendGo, if_pos hc]
      have hadv : Inv cat text (it_advance cat text it) :=
        inv_advance_of_lookahead h (and_ne_zero_left hc)
      obtain ⟨h1, h2, h3⟩ := ih (it_advance cat text it) hadv
      refine ⟨h1, ?_, frameEq_trans (frameEq_advance cat text it) h3⟩
      calc it.pos ≤ it.pos + 1 := Nat.le_succ _
        _ ≤ _ := h2
    · rw [extendGo, if_neg hc]
      exact ⟨h, Nat.le_refl _, frameEq_refl it⟩

theorem absorbGo_spec (cat : Nat → Mask) (text : List Nat) (m e : Mask) :
    ∀ fuel it, Inv cat text it →
      Inv cat text (absorbGo cat text m e fuel it) ∧
      it.pos ≤ (absorbGo cat text m e fuel it).pos ∧
      FrameEq it (absorbGo cat text m e fuel it) := by
  intro fuel
  induction fuel with
  | zero => exact fun it h => ⟨h, Nat.le_refl _, frameEq_refl it⟩
  | succ n ih =>
    intro it h
    by_cases hc : it.lookahead &&& m ≠ 0
    · rw [absorbGo, if_pos hc]
      have hadv : Inv cat text (it_advance cat text it) :=
        inv_advance_of_lookahead h (and_ne_zero_left hc)
      obtain ⟨g1, g2, g3⟩ :=
        extendGo_spec cat text e (text.length + 1) (it_advance cat text it) hadv
      obtain ⟨h1, h2, h3⟩ := ih _ g1
      refine ⟨h1, ?_, frameEq_trans (frameEq_advance cat text it)
        (frameEq_trans g3 h3)⟩
      calc it.pos ≤ it.pos + 1 := Nat.le_succ _
        _ ≤ _ := g2
        _ ≤ _ := h2
    · rw [absorbGo, if_neg hc]
      exact ⟨h, Nat.le_refl _, frameEq_refl it⟩

theorem it_absorb_spec (cat : Nat → Mask) (text : List Nat) (m e : Mask)
    (it : TextIterator) (h : Inv cat text it) :
    Inv cat text (it_absorb cat text m e it) ∧
    it.pos ≤ (it_absorb cat text m e it).pos ∧
    FrameEq it (it_absorb cat text m e it) := by
  by_cases hc : it.lookahead &&& m ≠ 0
  · rw [it_absorb, if_pos hc]
    obtain ⟨h1, h2, h3⟩ := absorbGo_spec cat text m e (text.length + 1) it h
    exact ⟨⟨h1.1, h1.2⟩, h2, h3⟩
  · rw [it_absorb, if_neg hc]
    exact ⟨h, Nat.le_refl _, frameEq_refl it⟩

theorem it_commit_proj (s : TextIterator) :
    (it_commit s).pos = s.pos ∧ (it_commit s).curchar = s.curchar ∧
    (it_commit s).lookahead = s.lookahead ∧
    (it_commit s).bad = (s.bad || !s.in_transaction) ∧
    (it_commit s).in_transaction = false :=
  ⟨rfl, rfl, rfl, rfl, rfl⟩

theorem commit_ok {it s : TextIterator} (hfr : FrameEq (it_begin it) s)
    (hb : it.bad = false) (ht : it.in_transaction = false) :
    (it_commit s).pos = s.pos ∧ (it_commit s).curchar = s.curchar ∧
    (it_commit s).lookahead = s.lookahead ∧
    (it_commit s).bad = false ∧ (it_commit s).in_transaction = false := by
  obtain ⟨f1, f2, _, _, _⟩ := hfr
  refine ⟨rfl, rfl, rfl, ?_, rfl⟩
  show (s.bad || !s.in_transaction) = false
  rw [f1, f2]
  simp [it_begin, hb, ht]

theorem rollback_ok {it s : TextIterator} (hfr : FrameEq (it_begin it) s)
    (hb : it.bad = false) (ht : it.in_transaction = false) :
    (it_rollback s).pos = it.pos ∧ (it_rollback s).curchar = it.curchar ∧
    (it_rollback s).lookahead = it.lookahead ∧
    (it_rollback s).bad = false ∧ (it_rollback s).in_transaction = false := by
  obtain ⟨f1, f2, f3, f4, f5⟩ := hfr
  refine ⟨?_, ?_, ?_, ?_, rfl⟩
  · show s.savedPos = it.pos
    rw [f3]; rfl
  · show s.savedCurchar = it.curchar
    rw [f4]; rfl
  · show s.savedLookahead = it.lookahead
    rw [f5]; rfl
  · show (s.bad || !s.in_transaction) = false
    rw [f1, f2]
    simp [it_begin, hb, ht]

theorem inv_begin {cat : Nat → Mask} {text : List Nat} {it : TextIterator}
    (h : Inv cat text it) : Inv cat text (it_begin it) := h

theorem inv_of_fields {cat : Nat → Mask} {text : List Nat} {a b : TextIterator}
    (hpos : b.pos = a.pos) (hla : b.lookahead = a.lookahead)
    (h : Inv cat text a) : Inv cat text b := by
  constructor
  · rw [hpos]; exact h.1
  · rw [hla, hpos]; exact h.2

theorem gb9cScan_coarse (cat : Nat → Mask) (text : List Nat) :
    ∀ fuel seen it, Inv cat text it →
      Inv cat text (gb9cScan cat text fuel seen it).2 ∧
      it.pos ≤ (gb9cScan cat text fuel seen it).2.pos ∧
      FrameEq it (gb9cScan cat text fuel seen it).2 := by
  intro fuel
  induction fuel with
  | zero => exact fun seen it h => ⟨h, Nat.le_refl _, frameEq_refl it⟩
  | succ n ih =>
    intro seen it h
    by_cases hc : it.lookahead &&& (GC_InCB_Extend ||| GC_InCB_Linker) ≠ 0
    · rw [gb9cScan, if_pos hc]
      have hadv : Inv cat text (it_advance cat text it) :=
        inv_advance_of_lookahead h (and_ne_zero_left hc)
      obtain ⟨h1, h2, h3⟩ := ih _ (it_advance cat text it) hadv
      exact ⟨h1, Nat.le_trans (Nat.le_succ _) h2,
        frameEq_trans (frameEq_advance cat text it) h3⟩
    · rw [gb9cScan, if_neg hc]
      exact ⟨h, Nat.le_refl _, frameEq_refl it⟩

theorem gb9cTry_spec (cat : Nat → Mask) (text : List Nat) (it : TextIterator)
    (hinv : Inv cat text it) (hb : it.bad = false) (ht : it.in_transaction = false) :
    (∀ it', gb9cTry cat text it = .inl it' → Inv cat text it' ∧ it.pos < it'.pos ∧
        it'.bad = false ∧ it'.in_transaction = false) ∧
    (∀ it', gb9cTry cat text it = .inr it' → it'.pos = it.pos ∧
        it'.curchar = it.curchar ∧ it'.lookahead = it.lookahead ∧
        it'.bad = false ∧ it'.in_transaction = false) := by
  by_cases hc : it.curchar &&& GC_InCB_Consonant ≠ 0 ∧
      it.lookahead &&& (GC_InCB_Extend ||| GC_InCB_Linker) ≠ 0
  · have hlt : it.pos < text.length := pos_lt_of_lookahead hinv (and_ne_zero_left hc.2)
    have hadv : Inv cat text (it_advance cat text (it_begin it)) := inv_advance hlt
    obtain ⟨s1, s2, s3⟩ := gb9cScan_coarse cat text (text.length + 1)
      ((it_begin it).lookahead &&& GC_InCB_Linker ≠ 0)
      (it_advance cat text (it_begin it)) hadv
    have hfr : FrameEq (it_begin it)
        (gb9cScan cat text (text.length + 1)
          ((it_begin it).lookahead &&& GC_InCB_Linker ≠ 0)
          (it_advance cat text (it_begin it))).2 :=
      frameEq_trans (frameEq_advance cat text (it_begin it)) s3
    rw [gb9cTry, if_pos hc]
    by_cases hd : (gb9cScan cat text (text.length + 1)
          ((it_begin it).lookahead &&& GC_InCB_Linker ≠ 0)
          (it_advance cat text (it_begin it))).1 = true ∧
        (gb9cScan cat text (text.length + 1)
          ((it_begin it).lookahead &&& GC_InCB_Linker ≠ 0)
          (it_advance cat text (it_begin it))).2.lookahead &&& GC_InCB_Consonant ≠ 0
    · rw [if_pos hd]
      obtain ⟨c1, c2, c3, c4, c5⟩ := commit_ok hfr hb ht
      constructor
      · intro it' h'
        cases h'
        refine ⟨inv_of_fields c1 c3 s1, ?_, c4, c5⟩
        rw [c1]
        exact Nat.lt_of_lt_of_le (Nat.lt_succ_self _) s2
      · intro it' h'
        exact nomatch h'
    · rw [if_neg hd]
      obtain ⟨r1, r2, r3, r4, r5⟩ := rollback_ok hfr hb ht
      constructor
      · intro it' h'
        exact nomatch h'
      · intro it' h'
        cases h'
        exact ⟨r1, r2, r3, r4, r5⟩
  · rw [gb9cTry, if_neg hc]
    constructor
    · intro it' h'
      exact nomatch h'
    · intro it' h'
      cases h'
      exact ⟨rfl, rfl, rfl, hb, ht⟩

theorem gb11Try_spec (cat : Nat → Mask) (text : List Nat) (it : TextIterator)
    (hinv : Inv cat text it) (hb : it.bad = false) (ht : it.in_transaction = false) :
    (∀ it', gb11Try cat text it = .inl it' → Inv cat text it' ∧ it.pos < it'.pos ∧
        it'.bad = false ∧ it'.in_transaction = false) ∧
    (∀ it', gb11Try cat text it = .inr it' → it'.pos = it.pos ∧
        it'.curchar = it.curchar ∧ it'.lookahead = it.lookahead ∧
        it'.bad = false ∧ it'.in_transaction = false) := by
  by_cases hc : it.curchar &&& GC_Extended_Pictographic ≠ 0 ∧
      it.lookahead &&& (GC_Extend ||| GC_ZWJ) ≠ 0
  · obtain ⟨s1, s2, s3⟩ := extendGo_spec cat text GC_Extend (text.length + 1)
      (it_begin it) (inv_begin hinv)
    set it1 := extendGo cat text GC_Extend (text.length + 1) (it_begin it) with hit1
    rw [gb11Try, if_pos hc]
    by_cases hz : it1.lookahead &&& GC_ZWJ ≠ 0
    · rw [if_pos hz]
      have hadv : Inv cat text (it_advance cat text it1) :=
        inv_advance_of_lookahead s1 (and_ne_zero_left hz)
      have hfr2 : FrameEq (it_begin it) (it_advance cat text it1) :=
        frameEq_trans s3 (frameEq_advance cat text it1)
      by_cases he : (it_advance cat text it1).lookahead &&& GC_Extended_Pictographic ≠ 0
      · rw [if_pos he]
        obtain ⟨c1, c2, c3, c4, c5⟩ := commit_ok hfr2 hb ht
        constructor
        · intro it' h'
          cases h'
          refine ⟨inv_of_fields c1 c3 hadv, ?_, c4, c5⟩
          rw [c1, it_advance_pos]
          exact Nat.lt_succ_of_le s2
        · intro it' h'
          exact nomatch h'
      · rw [if_neg he]
        obtain ⟨r1, r2, r3, r4, r5⟩ := rollback_ok hfr2 hb ht
        refine ⟨fun it' h' => (nomatch h'), fun it' h' => ?_⟩
        cases h'
        exact ⟨r1, r2, r3, r4, r5⟩
    · rw [if_neg hz]
      obtain ⟨r1, r2, r3, r4, r5⟩ := rollback_ok s3 hb ht
      refine ⟨fun it' h' => (nomatch h'), fun it' h' => ?_⟩
      cases h'
      exact ⟨r1, r2, r3, r4, r5⟩
  · rw [gb11Try, if_neg hc]
    refine ⟨fun it' h' => (nomatch h'), fun it' h' => ?_⟩
    cases h'
    exact ⟨rfl, rfl, rfl, hb, ht⟩

theorem graphemeBody_spec (cat : Nat → Mask) (text : List Nat) (offset : Nat)
    (it0 : TextIterator) (hinv : Inv cat text it0) (hb : it0.bad = false)
    (ht : it0.in_transaction = false) (hlt : it0.pos < text.length)
    (hoff : offset ≤ it0.pos) :
    (∀ itc, graphemeBody cat text offset it0 = .inr itc →
        Inv cat text itc ∧ itc.bad = false ∧ itc.in_transaction = false ∧
        it0.pos < itc.pos) ∧
    (∀ itb, graphemeBody cat text offset it0 = .inl itb →
        offset < itb.pos ∧ itb.pos ≤ text.length ∧ itb.bad = false ∧
        itb.in_transaction = false) := by
  suffices h : Sum.elim
      (fun itb => offset < itb.pos ∧ itb.pos ≤ text.length ∧ itb.bad = false ∧
        itb.in_transaction = false)
      (fun itc => Inv cat text itc ∧ itc.bad = false ∧ itc.in_transaction = false ∧
        it0.pos < itc.pos)
      (graphemeBody cat text offset it0) by
    constructor
    · intro itc heq
      rw [heq] at h
      exact h
    · intro itb heq
      rw [heq] at h
      exact h
  simp only [graphemeBody]
  set it := it_advance cat text it0 with hit
  have hbad : it.bad = false := hb
  have htr : it.in_transaction = false := ht
  have hpos : it.pos = it0.pos + 1 := rfl
  have hInvIt : Inv cat text it := inv_advance hlt
  by_cases h1 : it.curchar &&& GC_CR ≠ 0 ∧ it.lookahead &&& GC_LF ≠ 0
  · simp only [if_pos h1, Sum.elim_inl]
    have hl : it.pos < text.length := pos_lt_of_lookahead hInvIt (and_ne_zero_left h1.2)
    exact ⟨by omega, by omega, hbad, htr⟩
  simp only [if_neg h1]
  by_cases h2 : it.curchar &&& (GC_Control ||| GC_CR ||| GC_LF) ≠ 0
  · simp only [if_pos h2]
    by_cases hacc : offset + 1 < it.pos
    · simp only [it_has_accepted, decide_eq_true_eq, if_pos hacc, Sum.elim_inl]
      exact ⟨by omega, by omega, hbad, htr⟩
    · simp only [it_has_accepted, decide_eq_true_eq, if_neg hacc, Sum.elim_inl]
      refine ⟨by omega, hInvIt.1, hbad, htr⟩
  simp only [if_neg h2]
  by_cases h3 : it.curchar &&& GC_L ≠ 0 ∧
      it.lookahead &&& (GC_L ||| GC_V ||| GC_LV ||| GC_LVT) ≠ 0
  · simp only [if_pos h3, Sum.elim_inr]
    exact ⟨hInvIt, hbad, htr, by omega⟩
  simp only [if_neg h3]
  by_cases h4 : it.curchar &&& (GC_LV ||| GC_V) ≠ 0 ∧
      it.lookahead &&& (GC_V ||| GC_T) ≠ 0
  · simp only [if_pos h4, Sum.elim_inr]
    exact ⟨hInvIt, hbad, htr, by omega⟩
  simp only [if_neg h4]
  by_cases h5 : it.curchar &&& (GC_LVT ||| GC_T) ≠ 0 ∧ it.lookahead &&& GC_T ≠ 0
  · simp only [if_pos h5, Sum.elim_inr]
    exact ⟨hInvIt, hbad, htr, by omega⟩
  simp only [if_neg h5]
  by_cases h6 : it.lookahead &&& GC_SpacingMark ≠ 0
  · simp only [if_pos h6, Sum.elim_inr]
    exact ⟨hInvIt, hbad, htr, by omega⟩
  simp only [if_neg h6]
  by_cases h7 : it.curchar &&& GC_Prepend ≠ 0
  · simp only [if_pos h7, Sum.elim_inr]
    exact ⟨hInvIt, hbad, htr, by omega⟩
  simp only [if_neg h7]
  obtain ⟨h9l, h9r⟩ := gb9cTry_spec cat text it hInvIt hbad htr
  rcases h9 : gb9cTry cat text it with it' | it1
  · obtain ⟨q1, q2, q3, q4⟩ := h9l it' h9
    dsimp only
    exact ⟨q1, q3, q4, by omega⟩
  obtain ⟨p1, p2, p3, p4, p5⟩ := h9r it1 h9
  dsimp only
  have hInv1 : Inv cat text it1 := inv_of_fields p1 p3 hInvIt
  obtain ⟨h11l, h11r⟩ := gb11Try_spec cat text it1 hInv1 p4 p5
  rcases h11 : gb11Try cat text it1 with it' | it2
  · obtain ⟨q1, q2, q3, q4⟩ := h11l it' h11
    dsimp only
    exact ⟨q1, q3, q4, by omega⟩
  obtain ⟨w1, w2, w3, w4, w5⟩ := h11r it2 h11
  dsimp only
  have hInv2 : Inv cat text it2 := inv_of_fields w1 w3 hInv1
  have hpos2 : it2.pos = it.pos := by rw [w1, p1]
  by_cases h8 : it2.lookahead &&& (GC_Extend ||| GC_ZWJ) ≠ 0
  · simp only [if_pos h8, Sum.elim_inr]
    exact ⟨hInv2, w4, w5, by omega⟩
  simp only [if_neg h8]
  by_cases h10 : it2.curchar &&& GC_Regional_Indicator ≠ 0 ∧
      it2.lookahead &&& GC_Regional_Indicator ≠ 0
  · simp only [if_pos h10]
    have hInv3 : Inv cat text (it_advance cat text it2) :=
      inv_advance_of_lookahead hInv2 (and_ne_zero_left h10.2)
    have hpos3 : (it_advance cat text it2).pos = it2.pos + 1 := rfl
    by_cases h12 : (it_advance cat text it2).lookahead &&&
        (GC_Extend ||| GC_ZWJ ||| GC_InCB_Extend) ≠ 0
    · simp only [if_pos h12, Sum.elim_inr]
      exact ⟨hInv3, w4, w5, by omega⟩
    · simp only [if_neg h12, Sum.elim_inl]
      exact ⟨by omega, hInv3.1, w4, w5⟩
  · simp only [if_neg h10, Sum.elim_inl]
    exact ⟨by omega, hInv2.1, w4, w5⟩

/-- Specification of the shared engine loop: starting from a well formed
state outside a transaction, the final state stays inside the text, never
trips the transaction assertions, and its position is strictly beyond
`offset` as soon as one iteration could run. -/
theorem runLoop_spec (cat : Nat → Mask) (text : List Nat)
    (body : TextIterator → StepResult) (offset : Nat)
    (hbody : ∀ it, Inv cat text it → it.bad = false → it.in_transaction = false →
      offset ≤ it.pos → it.pos < text.length →
      (∀ itc, body it = .inr itc → Inv cat text itc ∧ itc.bad = false ∧
        itc.in_transaction = false ∧ it.pos < itc.pos) ∧
      (∀ itb, body it = .inl itb → offset < itb.pos ∧ itb.pos ≤ text.length ∧
        itb.bad = false ∧ itb.in_transaction = false)) :
    ∀ fuel it, Inv cat text it → it.bad = false → it.in_transaction = false →
      offset ≤ it.pos →
      (runLoop text body fuel it).pos ≤ text.length ∧
      (runLoop text body fuel it).bad = false ∧
      (runLoop text body fuel it).in_transaction = false ∧
      (offset < it.pos → offset < (runLoop text body fuel it).pos) ∧
      (it.pos < text.length → 0 < fuel → offset < (runLoop text body fuel it).pos) := by
  intro fuel
  induction fuel with
  | zero =>
    intro it hinv hb ht hoff
    exact ⟨hinv.1, hb, ht, fun h => h, fun _ h => absurd h (by omega)⟩
  | succ n ih =>
    intro it hinv hb ht hoff
    by_cases hl : it.pos < text.length
    · rw [runLoop, if_pos hl]
      obtain ⟨hcont, hbrk⟩ := hbody it hinv hb ht hoff hl
      rcases hres : body it with itb | itc
      · obtain ⟨b1, b2, b3, b4⟩ := hbrk itb hres
        exact ⟨b2, b3, b4, fun _ => b1, fun _ _ => b1⟩
      · obtain ⟨c1, c2, c3, c4⟩ := hcont itc hres
        obtain ⟨i1, i2, i3, i4, i5⟩ := ih itc c1 c2 c3 (by omega)
        exact ⟨i1, i2, i3, fun _ => i4 (by omega), fun _ _ => i4 (by omega)⟩
    · rw [runLoop, if_neg hl]
      exact ⟨hinv.1, hb, ht, fun h => h, fun h => absurd h hl⟩

/-- Behaviour of grapheme_next_break as a function of the offset: within
the text the result is strictly beyond the offset and at most the length;
at the end it is the length; the transaction discipline is respected. -/
theorem graphemeFull_spec (cat : Nat → Mask) (text : List Nat) (offset : Nat)
    (h : offset ≤ text.length) :
    (grapheme_next_break_full cat text offset).pos ≤ text.length ∧
    (grapheme_next_break_full cat text offset).bad = false ∧
    (grapheme_next_break_full cat text offset).in_transaction = false ∧
    (offset < text.length → offset < (grapheme_next_break_full cat text offset).pos) ∧
    (offset = text.length → (grapheme_next_break_full cat text offset).pos = offset) := by
  have hinit : Inv cat text (textInit cat text offset) := ⟨h, rfl⟩
  obtain ⟨r1, r2, r3, r4, r5⟩ := runLoop_spec cat text
    (graphemeBody cat text offset) offset
    (fun it hinv hb ht hoff hl => graphemeBody_spec cat text offset it hinv hb ht hl hoff)
    (text.length + 1) (textInit cat text offset) hinit rfl rfl (Nat.le_refl offset)
  refine ⟨r1, r2, r3, fun hlt => r5 hlt (by omega), fun heq => ?_⟩
  rw [grapheme_next_break_full, runLoop, if_neg (by simp [textInit, heq])]
  rfl

theorem wbZWJTry_spec (cat : Nat → Mask) (text : List Nat) (it : TextIterator)
    (hinv : Inv cat text it) (hb : it.bad = false) (ht : it.in_transaction = false) :
    (∀ it', wbZWJTry cat text it = .inl it' → Inv cat text it' ∧ it.pos < it'.pos ∧
        it'.bad = false ∧ it'.in_transaction = false) ∧
    (∀ it', wbZWJTry cat text it = .inr it' → it'.pos = it.pos ∧
        it'.curchar = it.curchar ∧ it'.lookahead = it.lookahead ∧
        it'.bad = false ∧ it'.in_transaction = false) := by
  by_cases hc : it.lookahead &&& WC_ZWJ ≠ 0
  · have hlt : it.pos < text.length := pos_lt_of_lookahead hinv (and_ne_zero_left hc)
    have hadv : Inv cat text (it_advance cat text (it_begin it)) := inv_advance hlt
    have hfr : FrameEq (it_begin it) (it_advance cat text (it_begin it)) :=
      frameEq_advance cat text (it_begin it)
    rw [wbZWJTry, if_pos hc]
    by_cases he : (it_advance cat text (it_begin it)).lookahead &&&
        WC_Extended_Pictographic ≠ 0
    · rw [if_pos he]
      have hadv2 : Inv cat text
          (it_advance cat text (it_advance cat text (it_begin it))) :=
        inv_advance_of_lookahead hadv (and_ne_zero_left he)
      have hfr2 : FrameEq (it_begin it)
          (it_advance cat text (it_advance cat text (it_begin it))) :=
        frameEq_trans hfr (frameEq_advance cat text _)
      obtain ⟨c1, c2, c3, c4, c5⟩ := commit_ok hfr2 hb ht
      refine ⟨fun it' h' => ?_, fun it' h' => (nomatch h')⟩
      cases h'
      refine ⟨inv_of_fields c1 c3 hadv2, ?_, c4, c5⟩
      rw [c1]
      show it.pos < it.pos + 1 + 1
      omega
    · rw [if_neg he]
      obtain ⟨r1, r2, r3, r4, r5⟩ := rollback_ok hfr hb ht
      refine ⟨fun it' h' => (nomatch h'), fun it' h' => ?_⟩
      cases h'
      exact ⟨r1, r2, r3, r4, r5⟩
  · rw [wbZWJTry, if_neg hc]
    refine ⟨fun it' h' => (nomatch h'), fun it' h' => ?_⟩
    cases h'
    exact ⟨rfl, rfl, rfl, hb, ht⟩

theorem wb4Go_spec (cat : Nat → Mask) (text : List Nat) :
    ∀ fuel it, Inv cat text it →
      (∀ itg, wb4Go cat text fuel it = .inl itg → Inv cat text itg ∧
        it.pos < itg.pos ∧ FrameEq it itg) ∧
      (∀ itw, wb4Go cat text fuel it = .inr itw → Inv cat text itw ∧
        it.pos ≤ itw.pos ∧ FrameEq it itw) := by
  intro fuel
  induction fuel with
  | zero =>
    intro it h
    refine ⟨fun itg h' => (nomatch h'), fun itw h' => ?_⟩
    cases h'
    exact ⟨h, Nat.le_refl _, frameEq_refl it⟩
  | succ n ih =>
    intro it h
    by_cases hc : it.lookahead &&& (WC_Extend ||| WC_ZWJ ||| WC_Format) ≠ 0
    · rw [wb4Go, if_pos hc]
      have hadv : Inv cat text (it_advance cat text it) :=
        inv_advance_of_lookahead h (and_ne_zero_left hc)
      have hpa : (it_advance cat text it).pos = it.pos + 1 := rfl
      by_cases hz : it.lookahead &&& WC_ZWJ ≠ 0
      · rw [if_pos hz]
        by_cases he : (it_advance cat text it).lookahead &&&
            WC_Extended_Pictographic ≠ 0
        · rw [if_pos he]
          refine ⟨fun itg h' => ?_, fun itw h' => (nomatch h')⟩
          cases h'
          exact ⟨hadv, Nat.lt_succ_self _, frameEq_advance cat text it⟩
        · rw [if_neg he]
          obtain ⟨ihl, ihr⟩ := ih (it_advance cat text it) hadv
          constructor
          · intro itg h'
            obtain ⟨g1, g2, g3⟩ := ihl itg h'
            exact ⟨g1, by omega, frameEq_trans (frameEq_advance cat text it) g3⟩
          · intro itw h'
            obtain ⟨g1, g2, g3⟩ := ihr itw h'
            exact ⟨g1, by omega, frameEq_trans (frameEq_advance cat text it) g3⟩
      · rw [if_neg hz]
        obtain ⟨ihl, ihr⟩ := ih (it_advance cat text it) hadv
        constructor
        · intro itg h'
          obtain ⟨g1, g2, g3⟩ := ihl itg h'
          exact ⟨g1, by omega, frameEq_trans (frameEq_advance cat text it) g3⟩
        · intro itw h'
          obtain ⟨g1, g2, g3⟩ := ihr itw h'
          exact ⟨g1, by omega, frameEq_trans (frameEq_advance cat text it) g3⟩
    · rw [wb4Go, if_neg hc]
      refine ⟨fun itg h' => (nomatch h'), fun itw h' => ?_⟩
      cases h'
      exact ⟨h, Nat.le_refl _, frameEq_refl it⟩

theorem wb67Try_spec (cat : Nat → Mask) (text : List Nat) (it : TextIterator)
    (hinv : Inv cat text it) (hb : it.bad = false) (ht : it.in_transaction = false) :
    (∀ it', wb67Try cat text it = .inl it' → Inv cat text it' ∧ it.pos < it'.pos ∧
        it'.bad = false ∧ it'.in_transaction = false) ∧
    (∀ it', wb67Try cat text it = .inr it' → it'.pos = it.pos ∧
        it'.curchar = it.curchar ∧ it'.lookahead = it.lookahead ∧
        it'.bad = false ∧ it'.in_transaction = false) := by
  by_cases hc : it.curchar &&& AHLetter ≠ 0 ∧
      it.lookahead &&& (WC_MidLetter ||| MidNumLetQ) ≠ 0
  · have hlt : it.pos < text.length := pos_lt_of_lookahead hinv (and_ne_zero_left hc.2)
    have hadv : Inv cat text (it_advance cat text (it_begin it)) := inv_advance hlt
    obtain ⟨a1, a2, a3⟩ := it_absorb_spec cat text (WC_Extend ||| WC_Format ||| WC_ZWJ) 0
      (it_advance cat text (it_begin it)) hadv
    have hfr : FrameEq (it_begin it)
        (it_absorb cat text (WC_Extend ||| WC_Format ||| WC_ZWJ) 0
          (it_advance cat text (it_begin it))) :=
      frameEq_trans (frameEq_advance cat text (it_begin it)) a3
    rw [wb67Try, if_pos hc]
    by_cases hd : (it_absorb cat text (WC_Extend ||| WC_Format ||| WC_ZWJ) 0
        (it_advance cat text (it_begin it))).lookahead &&& AHLetter ≠ 0
    · rw [if_pos hd]
      obtain ⟨c1, c2, c3, c4, c5⟩ := commit_ok hfr hb ht
      refine ⟨fun it' h' => ?_, fun it' h' => (nomatch h')⟩
      cases h'
      refine ⟨inv_of_fields c1 c3 a1, ?_, c4, c5⟩
      rw [c1]
      exact Nat.lt_of_lt_of_le (Nat.lt_succ_self _) a2
    · rw [if_neg hd]
      obtain ⟨r1, r2, r3, r4, r5⟩ := rollback_ok hfr hb ht
      refine ⟨fun it' h' => (nomatch h'), fun it' h' => ?_⟩
      cases h'
      exact ⟨r1, r2, r3, r4, r5⟩
  · rw [wb67Try, if_neg hc]
    refine ⟨fun it' h' => (nomatch h'), fun it' h' => ?_⟩
    cases h'
    exact ⟨rfl, rfl, rfl, hb, ht⟩

theorem wb7bcTry_spec (cat : Nat → Mask) (text : List Nat) (it : TextIterator)
    (hinv : Inv cat text it) (hb : it.bad = false) (ht : it.in_transaction = false) :
    (∀ it', wb7bcTry cat text it = .inl it' → Inv cat text it' ∧ it.pos < it'.pos ∧
        it'.bad = false ∧ it'.in_transaction = false) ∧
    (∀ it', wb7bcTry cat text it = .inr it' → it'.pos = it.pos ∧
        it'.curchar = it.curchar ∧ it'.lookahead = it.lookahead ∧
        it'.bad = false ∧ it'.in_transaction = false) := by
  by_cases hc : it.curchar &&& WC_Hebrew_Letter ≠ 0 ∧
      it.lookahead &&& WC_Double_Quote ≠ 0
  · have hlt : it.pos < text.length := pos_lt_of_lookahead hinv (and_ne_zero_left hc.2)
    have hadv : Inv cat text (it_advance cat text (it_begin it)) := inv_advance hlt
    have hfr : FrameEq (it_begin it) (it_advance cat text (it_begin it)) :=
      frameEq_advance cat text (it_begin it)
    rw [wb7bcTry, if_pos hc]
    by_cases hd : (it_advance cat text (it_begin it)).lookahead &&&
        WC_Hebrew_Letter ≠ 0
    · rw [if_pos hd]
      obtain ⟨c1, c2, c3, c4, c5⟩ := commit_ok hfr hb ht
      refine ⟨fun it' h' => ?_, fun it' h' => (nomatch h')⟩
      cases h'
      refine ⟨inv_of_fields c1 c3 hadv, ?_, c4, c5⟩
      rw [c1]
      exact Nat.lt_succ_self _
    · rw [if_neg hd]
      obtain ⟨r1, r2, r3, r4, r5⟩ := rollback_ok hfr hb ht
      refine ⟨fun it' h' => (nomatch h'), fun it' h' => ?_⟩
      cases h'
      exact ⟨r1, r2, r3, r4, r5⟩
  · rw [wb7bcTry, if_neg hc]
    refine ⟨fun it' h' => (nomatch h'), fun it' h' => ?_⟩
    cases h'
    exact ⟨rfl, rfl, rfl, hb, ht⟩

theorem wb1112Try_spec (cat : Nat → Mask) (text : List Nat) (it : TextIterator)
    (hinv : Inv cat text it) (hb : it.bad = false) (ht : it.in_transaction = false) :
    (∀ it', wb1112Try cat text it = .inl it' → Inv cat text it' ∧ it.pos < it'.pos ∧
        it'.bad = false ∧ it'.in_transaction = false) ∧
    (∀ it', wb1112Try cat text it = .inr it' → it'.pos = it.pos ∧
        it'.curchar = it.curchar ∧ it'.lookahead = it.lookahead ∧
        it'.bad = false ∧ it'.in_transaction = false) := by
  by_cases hc : it.curchar &&& WC_Numeric ≠ 0 ∧
      it.lookahead &&& (WC_MidNum ||| MidNumLetQ) ≠ 0
  · have hlt : it.pos < text.length := pos_lt_of_lookahead hinv (and_ne_zero_left hc.2)
    have hadv : Inv cat text (it_advance cat text (it_begin it)) := inv_advance hlt
    obtain ⟨a1, a2, a3⟩ := it_absorb_spec cat text (WC_Extend ||| WC_Format ||| WC_ZWJ) 0
      (it_advance cat text (it_begin it)) hadv
    have hfr : FrameEq (it_begin it)
        (it_absorb cat text (WC_Extend ||| WC_Format ||| WC_ZWJ) 0
          (it_advance cat text (it_begin it))) :=
      frameEq_trans (frameEq_advance cat text (it_begin it)) a3
    rw [wb1112Try, if_pos hc]
    by_cases hd : (it_absorb cat text (WC_Extend ||| WC_Format ||| WC_ZWJ) 0
        (it_advance cat text (it_begin it))).lookahead &&& WC_Numeric ≠ 0
    · rw [if_pos hd]
      obtain ⟨c1, c2, c3, c4, c5⟩ := commit_ok hfr hb ht
      refine ⟨fun it' h' => ?_, fun it' h' => (nomatch h')⟩
      cases h'
      refine ⟨inv_of_fields c1 c3 a1, ?_, c4, c5⟩
      rw [c1]
      exact Nat.lt_of_lt_of_le (Nat.lt_succ_self _) a2
    · rw [if_neg hd]
      obtain ⟨r1, r2, r3, r4, r5⟩ := rollback_ok hfr hb ht
      refine ⟨fun it' h' => (nomatch h'), fun it' h' => ?_⟩
      cases h'
      exact ⟨r1, r2, r3, r4, r5⟩
  · rw [wb1112Try, if_neg hc]
    refine ⟨fun it' h' => (nomatch h'), fun it' h' => ?_⟩
    cases h'
    exact ⟨rfl, rfl, rfl, hb, ht⟩

theorem wordBody_spec (cat : Nat → Mask) (text : List Nat) (offset : Nat)
    (it0 : TextIterator) (hinv : Inv cat text it0) (hb : it0.bad = false)
    (ht : it0.in_transaction = false) (hlt : it0.pos < text.length)
    (hoff : offset ≤ it0.pos) :
    (∀ itc, wordBody cat text offset it0 = .inr itc →
        Inv cat text itc ∧ itc.bad = false ∧ itc.in_transaction = false ∧
        it0.pos < itc.pos) ∧
    (∀ itb, wordBody cat text offset it0 = .inl itb →
        offset < itb.pos ∧ itb.pos ≤ text.length ∧ itb.bad = false ∧
        itb.in_transaction = false) := by
  suffices h : Sum.elim
      (fun itb => offset < itb.pos ∧ itb.pos ≤ text.length ∧ itb.bad = false ∧
        itb.in_transaction = false)
      (fun itc => Inv cat text itc ∧ itc.bad = false ∧ itc.in_transaction = false ∧
        it0.pos < itc.pos)
      (wordBody cat text offset it0) by
    constructor
    · intro itc heq
      rw [heq] at h
      exact h
    · intro itb heq
      rw [heq] at h
      exact h
  simp only [wordBody]
  set it := it_advance cat text it0 with hit
  have hbad : it.bad = false := hb
  have htr : it.in_transaction = false := ht
  have hpos : it.pos = it0.pos + 1 := rfl
  have hInvIt : Inv cat text it := inv_advance hlt
  by_cases h1 : it.curchar &&& WC_CR ≠ 0 ∧ it.lookahead &&& WC_LF ≠ 0
  · simp only [if_pos h1, Sum.elim_inl]
    have hl : it.pos < text.length := pos_lt_of_lookahead hInvIt (and_ne_zero_left h1.2)
    exact ⟨by omega, by omega, hbad, htr⟩
  simp only [if_neg h1]
  by_cases h2 : it.curchar &&& (WC_Newline ||| WC_CR ||| WC_LF) ≠ 0
  · simp only [if_pos h2]
    by_cases hacc : offset + 1 < it.pos
    · simp only [it_has_accepted, decide_eq_true_eq, if_pos hacc, Sum.elim_inl]
      exact ⟨by omega, by omega, hbad, htr⟩
    · simp only [it_has_accepted, decide_eq_true_eq, if_neg hacc, Sum.elim_inl]
      exact ⟨by omega, hInvIt.1, hbad, htr⟩
  simp only [if_neg h2]
  by_cases h3 : it.curchar &&& WC_ZWJ ≠ 0 ∧
      it.lookahead &&& WC_Extended_Pictographic ≠ 0
  · simp only [if_pos h3, Sum.elim_inr]
    exact ⟨hInvIt, hbad, htr, by omega⟩
  simp only [if_neg h3]
  obtain ⟨hzl, hzr⟩ := wbZWJTry_spec cat text it hInvIt hbad htr
  rcases hz : wbZWJTry cat text it with it' | it1
  · obtain ⟨q1, q2, q3, q4⟩ := hzl it' hz
    dsimp only
    exact ⟨q1, q3, q4, by omega⟩
  obtain ⟨p1, p2, p3, p4, p5⟩ := hzr it1 hz
  dsimp only
  have hInv1 : Inv cat text it1 := inv_of_fields p1 p3 hInvIt
  by_cases h4 : it1.curchar &&& WC_WSegSpace ≠ 0 ∧ it1.lookahead &&& WC_WSegSpace ≠ 0
  · simp only [if_pos h4, Sum.elim_inr]
    exact ⟨hInv1, p4, p5, by omega⟩
  simp only [if_neg h4]
  obtain ⟨h4l, h4r⟩ := wb4Go_spec cat text (text.length + 1) it1 hInv1
  rcases hw : wb4Go cat text (text.length + 1) it1 with itg | itw
  · obtain ⟨g1, g2, g3⟩ := h4l itg hw
    dsimp only
    refine ⟨g1, ?_, ?_, by omega⟩
    · rw [g3.2.1, p4]
    · rw [g3.1, p5]
  obtain ⟨v1, v2, v3⟩ := h4r itw hw
  dsimp only
  set it2 : TextIterator := { itw with curchar := it1.curchar } with hit2
  have hInv2 : Inv cat text it2 := inv_of_fields rfl rfl v1
  have hpos2 : it2.pos = itw.pos := rfl
  have hbad2 : it2.bad = false := by
    show itw.bad = false
    rw [v3.2.1, p4]
  have htr2 : it2.in_transaction = false := by
    show itw.in_transaction = false
    rw [v3.1, p5]
  have hge2 : it.pos ≤ it2.pos := by
    rw [hpos2, ← p1]
    exact v2
  by_cases h5 : it2.curchar &&& AHLetter ≠ 0 ∧ it2.lookahead &&& AHLetter ≠ 0
  · simp only [if_pos h5, Sum.elim_inr]
    exact ⟨hInv2, hbad2, htr2, by omega⟩
  simp only [if_neg h5]
  obtain ⟨h67l, h67r⟩ := wb67Try_spec cat text it2 hInv2 hbad2 htr2
  rcases h67 : wb67Try cat text it2 with it' | it3
  · obtain ⟨q1, q2, q3, q4⟩ := h67l it' h67
    dsimp only
    exact ⟨q1, q3, q4, by omega⟩
  obtain ⟨s1, s2, s3, s4, s5⟩ := h67r it3 h67
  dsimp only
  have hInv3 : Inv cat text it3 := inv_of_fields s1 s3 hInv2
  have hge3 : it.pos ≤ it3.pos := by omega
  by_cases h6 : it3.curchar &&& WC_Hebrew_Letter ≠ 0 ∧
      it3.lookahead &&& WC_Single_Quote ≠ 0
  · simp only [if_pos h6, Sum.elim_inr]
    exact ⟨hInv3, s4, s5, by omega⟩
  simp only [if_neg h6]
  obtain ⟨h7l, h7r⟩ := wb7bcTry_spec cat text it3 hInv3 s4 s5
  rcases h7 : wb7bcTry cat text it3 with it' | it4
  · obtain ⟨q1, q2, q3, q4⟩ := h7l it' h7
    dsimp only
    exact ⟨q1, q3, q4, by omega⟩
  obtain ⟨t1, t2, t3, t4, t5⟩ := h7r it4 h7
  dsimp only
  have hInv4 : Inv cat text it4 := inv_of_fields t1 t3 hInv3
  have hge4 : it.pos ≤ it4.pos := by omega
  by_cases h8 : it4.curchar &&& WC_Numeric ≠ 0 ∧ it4.lookahead &&& WC_Numeric ≠ 0
  · simp only [if_pos h8, Sum.elim_inr]
    exact ⟨hInv4, t4, t5, by omega⟩
  simp only [if_neg h8]
  by_cases h9 : it4.curchar &&& AHLetter ≠ 0 ∧ it4.lookahead &&& WC_Numeric ≠ 0
  · simp only [if_pos h9, Sum.elim_inr]
    exact ⟨hInv4, t4, t5, by omega⟩
  simp only [if_neg h9]
  by_cases h10 : it4.curchar &&& WC_Numeric ≠ 0 ∧ it4.lookahead &&& AHLetter ≠ 0
  · simp only [if_pos h10, Sum.elim_inr]
    exact ⟨hInv4, t4, t5, by omega⟩
  simp only [if_neg h10]
  obtain ⟨h11l, h11r⟩ := wb1112Try_spec cat text it4 hInv4 t4 t5
  rcases h11 : wb1112Try cat text it4 with it' | it5
  · obtain ⟨q1, q2, q3, q4⟩ := h11l it' h11
    dsimp only
    exact ⟨q1, q3, q4, by omega⟩
  obtain ⟨u1, u2, u3, u4, u5⟩ := h11r it5 h11
  dsimp only
  have hInv5 : Inv cat text it5 := inv_of_fields u1 u3 hInv4
  have hge5 : it.pos ≤ it5.pos := by omega
  by_cases h12 : it5.curchar &&& WC_Katakana ≠ 0 ∧ it5.lookahead &&& WC_Katakana ≠ 0
  · simp only [if_pos h12, Sum.elim_inr]
    exact ⟨hInv5, u4, u5, by omega⟩
  simp only [if_neg h12]
  by_cases h13 : it5.curchar &&& (AHLetter ||| WC_Numeric ||| WC_Katakana ||| WC_ExtendNumLet) ≠ 0 ∧
      it5.lookahead &&& WC_ExtendNumLet ≠ 0
  · simp only [if_pos h13, Sum.elim_inr]
    exact ⟨hInv5, u4, u5, by omega⟩
  simp only [if_neg h13]
  by_cases h14 : it5.curchar &&& WC_ExtendNumLet ≠ 0 ∧
      it5.lookahead &&& (AHLetter ||| WC_Numeric ||| WC_Katakana) ≠ 0
  · simp only [if_pos h14, Sum.elim_inr]
    exact ⟨hInv5, u4, u5, by omega⟩
  simp only [if_neg h14]
  by_cases h15 : it5.curchar &&& WC_Regional_Indicator ≠ 0 ∧
      it5.lookahead &&& WC_Regional_Indicator ≠ 0
  · simp only [if_pos h15, Sum.elim_inl]
    have hInv6 : Inv cat text (it_advance cat text it5) :=
      inv_advance_of_lookahead hInv5 (and_ne_zero_left h15.2)
    obtain ⟨a1, a2, a3⟩ := it_absorb_spec cat text (WC_Extend ||| WC_ZWJ ||| WC_Format) 0
      (it_advance cat text it5) hInv6
    have hpadv : (it_advance cat text it5).pos = it5.pos + 1 := rfl
    refine ⟨by omega, a1.1, ?_, ?_⟩
    · rw [a3.2.1]
      exact u4
    · rw [a3.1]
      exact u5
  · simp only [if_neg h15, Sum.elim_inl]
    exact ⟨by omega, hInv5.1, u4, u5⟩

/-- Behaviour of word_next_break, as for the grapheme engine. -/
theorem wordFull_spec (cat : Nat → Mask) (text : List Nat) (offset : Nat)
    (h : offset ≤ text.length) :
    (word_next_break_full cat text offset).pos ≤ text.length ∧
    (word_next_break_full cat text offset).bad = false ∧
    (word_next_break_full cat text offset).in_transaction = false ∧
    (offset < text.length → offset < (word_next_break_full cat text offset).pos) ∧
    (offset = text.length → (word_next_break_full cat text offset).pos = offset) := by
  have hinit : Inv cat text (textInit cat text offset) := ⟨h, rfl⟩
  obtain ⟨r1, r2, r3, r4, r5⟩ := runLoop_spec cat text
    (wordBody cat text offset) offset
    (fun it hinv hb ht hoff hl => wordBody_spec cat text offset it hinv hb ht hl hoff)
    (text.length + 1) (textInit cat text offset) hinit rfl rfl (Nat.le_refl offset)
  refine ⟨r1, r2, r3, fun hlt => r5 hlt (by omega), fun heq => ?_⟩
  rw [word_next_break_full, runLoop, if_neg (by simp [textInit, heq])]
  rfl

theorem sb7Try_spec (cat : Nat → Mask) (text : List Nat) (it : TextIterator)
    (hinv : Inv cat text it) (hb : it.bad = false) (ht : it.in_transaction = false) :
    (∀ it', sb7Try cat text it = .inl it' → Inv cat text it' ∧ it.pos ≤ it'.pos ∧
        it'.bad = false ∧ it'.in_transaction = false) ∧
    (∀ it', sb7Try cat text it = .inr it' → it'.pos = it.pos ∧
        it'.curchar = it.curchar ∧ it'.lookahead = it.lookahead ∧
        it'.bad = false ∧ it'.in_transaction = false) := by
  by_cases hc : it.curchar &&& (SC_Upper ||| SC_Lower) ≠ 0 ∧
      it.lookahead &&& SC_ATerm ≠ 0
  · have hlt : it.pos < text.length := pos_lt_of_lookahead hinv (and_ne_zero_left hc.2)
    have hadv : Inv cat text (it_advance cat text (it_begin it)) := inv_advance hlt
    obtain ⟨a1, a2, a3⟩ := it_absorb_spec cat text (SC_Format ||| SC_Extend) 0
      (it_advance cat text (it_begin it)) hadv
    have hfr : FrameEq (it_begin it)
        (it_absorb cat text (SC_Format ||| SC_Extend) 0
          (it_advance cat text (it_begin it))) :=
      frameEq_trans (frameEq_advance cat text (it_begin it)) a3
    rw [sb7Try, if_pos hc]
    by_cases hd : (it_absorb cat text (SC_Format ||| SC_Extend) 0
        (it_advance cat text (it_begin it))).lookahead &&& SC_Upper ≠ 0
    · rw [if_pos hd]
      obtain ⟨c1, c2, c3, c4, c5⟩ := commit_ok hfr hb ht
      refine ⟨fun it' h' => ?_, fun it' h' => (nomatch h')⟩
      cases h'
      refine ⟨inv_of_fields c1 c3 a1, ?_, c4, c5⟩
      rw [c1]
      exact Nat.le_trans (Nat.le_succ _) a2
    · rw [if_neg hd]
      obtain ⟨r1, r2, r3, r4, r5⟩ := rollback_ok hfr hb ht
      refine ⟨fun it' h' => (nomatch h'), fun it' h' => ?_⟩
      cases h'
      exact ⟨r1, r2, r3, r4, r5⟩
  · rw [sb7Try, if_neg hc]
    refine ⟨fun it' h' => (nomatch h'), fun it' h' => ?_⟩
    cases h'
    exact ⟨rfl, rfl, rfl, hb, ht⟩

theorem sb8Try_spec (cat : Nat → Mask) (text : List Nat) (it : TextIterator)
    (hinv : Inv cat text it) (hb : it.bad = false) (ht : it.in_transaction = false) :
    (∀ it', sb8Try cat text it = .inl it' → Inv cat text it' ∧ it.pos ≤ it'.pos ∧
        it'.bad = false ∧ it'.in_transaction = false) ∧
    (∀ it', sb8Try cat text it = .inr it' → it'.pos = it.pos ∧
        it'.curchar = it.curchar ∧ it'.lookahead = it.lookahead ∧
        it'.bad = false ∧ it'.in_transaction = false) := by
  by_cases hc : it.curchar &&& SC_ATerm ≠ 0
  · rw [sb8Try, if_pos hc]
    obtain ⟨a1, a2, a3⟩ := it_absorb_spec cat text SC_Close (SC_Format ||| SC_Extend)
      (it_begin it) (inv_begin hinv)
    set s1 := it_absorb cat text SC_Close (SC_Format ||| SC_Extend) (it_begin it)
    obtain ⟨b1, b2, b3⟩ := it_absorb_spec cat text SC_Sp (SC_Format ||| SC_Extend) s1 a1
    set s2 := it_absorb cat text SC_Sp (SC_Format ||| SC_Extend) s1
    obtain ⟨c1, c2, c3⟩ := it_absorb_spec cat text
      (0xFFFFFFFF ^^^ SC_OLetter ^^^ SC_Upper ^^^ SC_Lower ^^^ ParaSep ^^^ SATerm) 0 s2 b1
    set s3 := it_absorb cat text
      (0xFFFFFFFF ^^^ SC_OLetter ^^^ SC_Upper ^^^ SC_Lower ^^^ ParaSep ^^^ SATerm) 0 s2
    obtain ⟨d1, d2, d3⟩ := it_absorb_spec cat text (SC_Format ||| SC_Extend) 0 s3 c1
    set s4 := it_absorb cat text (SC_Format ||| SC_Extend) 0 s3
    have hfr4 : FrameEq (it_begin it) s4 :=
      frameEq_trans a3 (frameEq_trans b3 (frameEq_trans c3 d3))
    by_cases hd : s4.lookahead &&& SC_Lower ≠ 0
    · rw [if_pos hd]
      obtain ⟨e1, e2, e3⟩ := it_absorb_spec cat text (SC_Format ||| SC_Extend) 0 s4 d1
      have hfr5 : FrameEq (it_begin it)
          (it_absorb cat text (SC_Format ||| SC_Extend) 0 s4) :=
        frameEq_trans hfr4 e3
      obtain ⟨k1, k2, k3, k4, k5⟩ := commit_ok hfr5 hb ht
      refine ⟨fun it' h' => ?_, fun it' h' => (nomatch h')⟩
      cases h'
      refine ⟨inv_of_fields k1 k3 e1, ?_, k4, k5⟩
      rw [k1]
      calc it.pos ≤ s1.pos := a2
        _ ≤ s2.pos := b2
        _ ≤ s3.pos := c2
        _ ≤ s4.pos := d2
        _ ≤ _ := e2
    · rw [if_neg hd]
      obtain ⟨r1, r2, r3, r4, r5⟩ := rollback_ok hfr4 hb ht
      refine ⟨fun it' h' => (nomatch h'), fun it' h' => ?_⟩
      cases h'
      exact ⟨r1, r2, r3, r4, r5⟩
  · rw [sb8Try, if_neg hc]
    refine ⟨fun it' h' => (nomatch h'), fun it' h' => ?_⟩
    cases h'
    exact ⟨rfl, rfl, rfl, hb, ht⟩

theorem sb8aTry_spec (cat : Nat → Mask) (text : List Nat) (it : TextIterator)
    (hinv : Inv cat text it) (hb : it.bad = false) (ht : it.in_transaction = false) :
    (∀ it', sb8aTry cat text it = .inl it' → Inv cat text it' ∧ it.pos ≤ it'.pos ∧
        it'.bad = false ∧ it'.in_transaction = false) ∧
    (∀ it', sb8aTry cat text it = .inr it' → it'.pos = it.pos ∧
        it'.curchar = it.curchar ∧ it'.lookahead = it.lookahead ∧
        it'.bad = false ∧ it'.in_transaction = false) := by
  by_cases hc : it.curchar &&& SATerm ≠ 0
  · rw [sb8aTry, if_pos hc]
    obtain ⟨a1, a2, a3⟩ := it_absorb_spec cat text SC_Close (SC_Format ||| SC_Extend)
      (it_begin it) (inv_begin hinv)
    set s1 := it_absorb cat text SC_Close (SC_Format ||| SC_Extend) (it_begin it)
    obtain ⟨b1, b2, b3⟩ := it_absorb_spec cat text SC_Sp (SC_Format ||| SC_Extend) s1 a1
    set s2 := it_absorb cat text SC_Sp (SC_Format ||| SC_Extend) s1
    have hfr2 : FrameEq (it_begin it) s2 := frameEq_trans a3 b3
    by_cases hd : s2.lookahead &&& (SC_SContinue ||| SATerm) ≠ 0
    · rw [if_pos hd]
      have hadv : Inv cat text (it_advance cat text s2) :=
        inv_advance_of_lookahead b1 (and_ne_zero_left hd)
      obtain ⟨e1, e2, e3⟩ := it_absorb_spec cat text (SC_Format ||| SC_Extend) 0
        (it_advance cat text s2) hadv
      have hfr3 : FrameEq (it_begin it)
          (it_absorb cat text (SC_Format ||| SC_Extend) 0 (it_advance cat text s2)) :=
        frameEq_trans hfr2 (frameEq_trans (frameEq_advance cat text s2) e3)
      obtain ⟨k1, k2, k3, k4, k5⟩ := commit_ok hfr3 hb ht
      refine ⟨fun it' h' => ?_, fun it' h' => (nomatch h')⟩
      cases h'
      refine ⟨inv_of_fields k1 k3 e1, ?_, k4, k5⟩
      rw [k1]
      have hps : (it_advance cat text s2).pos = s2.pos + 1 := rfl
      have : it.pos ≤ s2.pos := Nat.le_trans a2 b2
      omega
    · rw [if_neg hd]
      obtain ⟨r1, r2, r3, r4, r5⟩ := rollback_ok hfr2 hb ht
      refine ⟨fun it' h' => (nomatch h'), fun it' h' => ?_⟩
      cases h'
      exact ⟨r1, r2, r3, r4, r5⟩
  · rw [sb8aTry, if_neg hc]
    refine ⟨fun it' h' => (nomatch h'), fun it' h' => ?_⟩
    cases h'
    exact ⟨rfl, rfl, rfl, hb, ht⟩

theorem sentenceBody_spec (cat : Nat → Mask) (text : List Nat) (offset : Nat)
    (it0 : TextIterator) (hinv : Inv cat text it0) (hb : it0.bad = false)
    (ht : it0.in_transaction = false) (hlt : it0.pos < text.length)
    (hoff : offset ≤ it0.pos) :
    (∀ itc, sentenceBody cat text it0 = .inr itc →
        Inv cat text itc ∧ itc.bad = false ∧ itc.in_transaction = false ∧
        it0.pos < itc.pos) ∧
    (∀ itb, sentenceBody cat text it0 = .inl itb →
        offset < itb.pos ∧ itb.pos ≤ text.length ∧ itb.bad = false ∧
        itb.in_transaction = false) := by
  suffices h : Sum.elim
      (fun itb => offset < itb.pos ∧ itb.pos ≤ text.length ∧ itb.bad = false ∧
        itb.in_transaction = false)
      (fun itc => Inv cat text itc ∧ itc.bad = false ∧ itc.in_transaction = false ∧
        it0.pos < itc.pos)
      (sentenceBody cat text it0) by
    constructor
    · intro itc heq
      rw [heq] at h
      exact h
    · intro itb heq
      rw [heq] at h
      exact h
  simp only [sentenceBody]
  set ita := it_advance cat text it0 with hita
  have hbada : ita.bad = false := hb
  have htra : ita.in_transaction = false := ht
  have hposa : ita.pos = it0.pos + 1 := rfl
  have hInvA : Inv cat text ita := inv_advance hlt
  by_cases h1 : ita.curchar &&& SC_CR ≠ 0 ∧ ita.lookahead &&& SC_LF ≠ 0
  · simp only [if_pos h1, Sum.elim_inl]
    have hInvB : Inv cat text (it_advance cat text ita) :=
      inv_advance_of_lookahead hInvA (and_ne_zero_left h1.2)
    have : (it_advance cat text ita).pos = ita.pos + 1 := rfl
    exact ⟨by omega, hInvB.1, hbada, htra⟩
  simp only [if_neg h1]
  by_cases h2 : ita.curchar &&& ParaSep ≠ 0
  · simp only [if_pos h2, Sum.elim_inl]
    exact ⟨by omega, hInvA.1, hbada, htra⟩
  simp only [if_neg h2]
  obtain ⟨a1, a2, a3⟩ := it_absorb_spec cat text (SC_Format ||| SC_Extend) 0 ita hInvA
  set it := it_absorb cat text (SC_Format ||| SC_Extend) 0 ita with hitabs
  have hbad : it.bad = false := by
    rw [a3.2.1]
    exact hbada
  have htr : it.in_transaction = false := by
    rw [a3.1]
    exact htra
  have hge : ita.pos ≤ it.pos := a2
  by_cases h3 : it.curchar &&& SC_ATerm ≠ 0 ∧ it.lookahead &&& SC_Numeric ≠ 0
  · simp only [if_pos h3, Sum.elim_inr]
    exact ⟨a1, hbad, htr, by omega⟩
  simp only [if_neg h3]
  obtain ⟨h7l, h7r⟩ := sb7Try_spec cat text it a1 hbad htr
  rcases h7 : sb7Try cat text it with it' | it1
  · obtain ⟨q1, q2, q3, q4⟩ := h7l it' h7
    dsimp only
    exact ⟨q1, q3, q4, by omega⟩
  obtain ⟨p1, p2, p3, p4, p5⟩ := h7r it1 h7
  dsimp only
  have hInv1 : Inv cat text it1 := inv_of_fields p1 p3 a1
  obtain ⟨h8l, h8r⟩ := sb8Try_spec cat text it1 hInv1 p4 p5
  rcases h8 : sb8Try cat text it1 with it' | it2
  · obtain ⟨q1, q2, q3, q4⟩ := h8l it' h8
    dsimp only
    exact ⟨q1, q3, q4, by omega⟩
  obtain ⟨s1, s2, s3, s4, s5⟩ := h8r it2 h8
  dsimp only
  have hInv2 : Inv cat text it2 := inv_of_fields s1 s3 hInv1
  obtain ⟨h8al, h8ar⟩ := sb8aTry_spec cat text it2 hInv2 s4 s5
  rcases h8a : sb8aTry cat text it2 with it' | it3
  · obtain ⟨q1, q2, q3, q4⟩ := h8al it' h8a
    dsimp only
    exact ⟨q1, q3, q4, by omega⟩
  obtain ⟨t1, t2, t3, t4, t5⟩ := h8ar it3 h8a
  dsimp only
  have hInv3 : Inv cat text it3 := inv_of_fields t1 t3 hInv2
  have hge3 : ita.pos ≤ it3.pos := by omega
  by_cases h4 : it3.curchar &&& SATerm ≠ 0
  · simp only [if_pos h4]
    obtain ⟨c1, c2, c3⟩ := it_absorb_spec cat text SC_Close (SC_Format ||| SC_Extend)
      it3 hInv3
    set w1 := it_absorb cat text SC_Close (SC_Format ||| SC_Extend) it3
    obtain ⟨d1, d2, d3⟩ := it_absorb_spec cat text SC_Sp (SC_Format ||| SC_Extend) w1 c1
    set w2 := it_absorb cat text SC_Sp (SC_Format ||| SC_Extend) w1
    have hbad4 : w2.bad = false := by
      rw [d3.2.1, c3.2.1]
      exact t4
    have htr4 : w2.in_transaction = false := by
      rw [d3.1, c3.1]
      exact t5
    by_cases h5 : w2.lookahead &&& ParaSep ≠ 0
    · simp only [if_pos h5, Sum.elim_inr]
      exact ⟨d1, hbad4, htr4, by omega⟩
    · simp only [if_neg h5, Sum.elim_inl]
      exact ⟨by omega, d1.1, hbad4, htr4⟩
  · simp only [if_neg h4, Sum.elim_inr]
    exact ⟨hInv3, t4, t5, by omega⟩

/-- Behaviour of sentence_next_break, as for the grapheme engine. -/
theorem sentenceFull_spec (cat : Nat → Mask) (text : List Nat) (offset : Nat)
    (h : offset ≤ text.length) :
    (sentence_next_break_full cat text offset).pos ≤ text.length ∧
    (sentence_next_break_full cat text offset).bad = false ∧
    (sentence_next_break_full cat text offset).in_transaction = false ∧
    (offset < text.length → offset < (sentence_next_break_full cat text offset).pos) ∧
    (offset = text.length → (sentence_next_break_full cat text offset).pos = offset) := by
  have hinit : Inv cat text (textInit cat text offset) := ⟨h, rfl⟩
  obtain ⟨r1, r2, r3, r4, r5⟩ := runLoop_spec cat text
    (sentenceBody cat text) offset
    (fun it hinv hb ht hoff hl => sentenceBody_spec cat text offset it hinv hb ht hl hoff)
    (text.length + 1) (textInit cat text offset) hinit rfl rfl (Nat.le_refl offset)
  refine ⟨r1, r2, r3, fun hlt => r5 hlt (by omega), fun heq => ?_⟩
  rw [sentence_next_break_full, runLoop, if_neg (by simp [textInit, heq])]
  rfl

theorem boundaryChain_head (f : Nat → Nat) (len : Nat) :
    ∀ fuel start, ∃ rest, boundaryChain f len fuel start = start :: rest := by
  intro fuel start
  cases fuel with
  | zero => exact ⟨[], rfl⟩
  | succ n =>
    by_cases hs : start < len
    · exact ⟨boundaryChain f len n (f start), by rw [boundaryChain, if_pos hs]⟩
    · exact ⟨[], by rw [boundaryChain, if_neg hs]⟩

theorem chainRanges_eq_range' (f : Nat → Nat) (len : Nat)
    (hf : ∀ o, o < len → o < f o ∧ f o ≤ len) :
    ∀ fuel start, start ≤ len → len - start ≤ fuel →
      chainRanges (boundaryChain f len fuel start) = List.range' start (len - start) := by
  intro fuel
  induction fuel with
  | zero =>
    intro start hle hfu
    rw [show len - start = 0 from by omega]
    rw [boundaryChain]
    rfl
  | succ n ih =>
    intro start hle hfu
    by_cases hs : start < len
    · obtain ⟨hf1, hf2⟩ := hf start hs
      rw [boundaryChain, if_pos hs]
      obtain ⟨rest, hrest⟩ := boundaryChain_head f len n (f start)
      rw [hrest, chainRanges, ← hrest, ih (f start) hf2 (by omega)]
      have hr := List.range'_append start (f start - start) (len - f start) 1
      rw [one_mul, show start + (f start - start) = f start from by omega,
        show (len - f start) + (f start - start) = len - start from by omega] at hr
      exact hr
    · rw [show len - start = 0 from by omega]
      rw [boundaryChain, if_neg hs]
      rfl

/-- C1: for every classifier, text and offset `0 ≤ offset ≤ len`, each of
grapheme_next_break, word_next_break and sentence_next_break returns `len`
when `offset = len`, and otherwise a value strictly greater than `offset`
and at most `len`. -/
theorem claim1_next_break_bounds (gcat wcat scat : Nat → Mask) (text : List Nat)
    (offset : Nat) (h : offset ≤ text.length) :
    (offset = text.length →
      grapheme_next_break gcat text offset = text.length ∧
      word_next_break wcat text offset = text.length ∧
      sentence_next_break scat text offset = text.length) ∧
    (offset < text.length →
      (offset < grapheme_next_break gcat text offset ∧
        grapheme_next_break gcat text offset ≤ text.length) ∧
      (offset < word_next_break wcat text offset ∧
        word_next_break wcat text offset ≤ text.length) ∧
      (offset < sentence_next_break scat text offset ∧
        sentence_next_break scat text offset ≤ text.length)) := by
  obtain ⟨g1, _, _, g4, g5⟩ := graphemeFull_spec gcat text offset h
  obtain ⟨w1, _, _, w4, w5⟩ := wordFull_spec wcat text offset h
  obtain ⟨s1, _, _, s4, s5⟩ := sentenceFull_spec scat text offset h
  constructor
  · intro heq
    rw [grapheme_next_break, word_next_break, sentence_next_break,
      g5 heq, w5 heq, s5 heq]
    exact ⟨heq, heq, heq⟩
  · intro hlt
    exact ⟨⟨g4 hlt, g1⟩, ⟨w4 hlt, w1⟩, ⟨s4 hlt, s1⟩⟩

theorem claim1_next_break_bounds_witness :
    (1 ≤ ([55, 66] : List Nat).length) ∧
    ((1 = ([55, 66] : List Nat).length →
      grapheme_next_break (fun _ => 0) [55, 66] 1 = ([55, 66] : List Nat).length ∧
      word_next_break (fun _ => 0) [55, 66] 1 = ([55, 66] : List Nat).length ∧
      sentence_next_break (fun _ => 0) [55, 66] 1 = ([55, 66] : List Nat).length) ∧
    (1 < ([55, 66] : List Nat).length →
      (1 < grapheme_next_break (fun _ => 0) [55, 66] 1 ∧
        grapheme_next_break (fun _ => 0) [55, 66] 1 ≤ ([55, 66] : List Nat).length) ∧
      (1 < word_next_break (fun _ => 0) [55, 66] 1 ∧
        word_next_break (fun _ => 0) [55, 66] 1 ≤ ([55, 66] : List Nat).length) ∧
      (1 < sentence_next_break (fun _ => 0) [55, 66] 1 ∧
        sentence_next_break (fun _ => 0) [55, 66] 1 ≤ ([55, 66] : List Nat).length))) :=
  ⟨by decide,
    claim1_next_break_bounds (fun _ => 0) (fun _ => 0) (fun _ => 0) [55, 66] 1 (by decide)⟩

/-- C2: iterating each next-break function from offset 0 partitions the
text: the concatenation of the half-open ranges between consecutive
boundaries is exactly `[0, len)`, each index covered once, in order. -/
theorem claim2_partition (gcat wcat scat : Nat → Mask) (text : List Nat) :
    chainRanges (boundaryChain (grapheme_next_break gcat text) text.length
      (text.length + 1) 0) = List.range text.length ∧
    chainRanges (boundaryChain (word_next_break wcat text) text.length
      (text.length + 1) 0) = List.range text.length ∧
    chainRanges (boundaryChain (sentence_next_break scat text) text.length
      (text.length + 1) 0) = List.range text.length := by
  rw [List.range_eq_range']
  have hg : ∀ o, o < text.length →
      o < grapheme_next_break gcat text o ∧ grapheme_next_break gcat text o ≤ text.length := by
    intro o ho
    obtain ⟨g1, _, _, g4, _⟩ := graphemeFull_spec gcat text o (Nat.le_of_lt ho)
    exact ⟨g4 ho, g1⟩
  have hw : ∀ o, o < text.length →
      o < word_next_break wcat text o ∧ word_next_break wcat text o ≤ text.length := by
    intro o ho
    obtain ⟨w1, _, _, w4, _⟩ := wordFull_spec wcat text o (Nat.le_of_lt ho)
    exact ⟨w4 ho, w1⟩
  have hs : ∀ o, o < text.length →
      o < sentence_next_break scat text o ∧ sentence_next_break scat text o ≤ text.length := by
    intro o ho
    obtain ⟨s1, _, _, s4, _⟩ := sentenceFull_spec scat text o (Nat.le_of_lt ho)
    exact ⟨s4 ho, s1⟩
  refine ⟨?_, ?_, ?_⟩
  · have := chainRanges_eq_range' (grapheme_next_break gcat text) text.length hg
      (text.length + 1) 0 (Nat.zero_le _) (by omega)
    rwa [Nat.sub_zero] at this
  · have := chainRanges_eq_range' (word_next_break wcat text) text.length hw
      (text.length + 1) 0 (Nat.zero_le _) (by omega)
    rwa [Nat.sub_zero] at this
  · have := chainRanges_eq_range' (sentence_next_break scat text) text.length hs
      (text.length + 1) 0 (Nat.zero_le _) (by omega)
    rwa [Nat.sub_zero] at this

/-- C9: on every valid text and offset, the three engines respect the
one-level transaction discipline of the TextIterator: the run never
attempts a nested it_begin nor an unmatched it_commit / it_rollback (the
`bad` flag, which records any would-be assertion failure, stays false) and
every opened transaction is closed by the end (`in_transaction` is false in
the final state). -/
theorem claim9_transaction_discipline (gcat wcat scat : Nat → Mask)
    (text : List Nat) (offset : Nat) (h : offset ≤ text.length) :
    ((grapheme_next_break_full gcat text offset).bad = false ∧
      (grapheme_next_break_full gcat text offset).in_transaction = false) ∧
    ((word_next_break_full wcat text offset).bad = false ∧
      (word_next_break_full wcat text offset).in_transaction = false) ∧
    ((sentence_next_break_full scat text offset).bad = false ∧
      (sentence_next_break_full scat text offset).in_transaction = false) := by
  obtain ⟨_, g2, g3, _, _⟩ := graphemeFull_spec gcat text offset h
  obtain ⟨_, w2, w3, _, _⟩ := wordFull_spec wcat text offset h
  obtain ⟨_, s2, s3, _, _⟩ := sentenceFull_spec scat text offset h
  exact ⟨⟨g2, g3⟩, ⟨w2, w3⟩, ⟨s2, s3⟩⟩

theorem claim9_transaction_discipline_witness :
    (0 ≤ ([55, 66] : List Nat).length) ∧
    (((grapheme_next_break_full (fun _ => 0) [55, 66] 0).bad = false ∧
      (grapheme_next_break_full (fun _ => 0) [55, 66] 0).in_transaction = false) ∧
    ((word_next_break_full (fun _ => 0) [55, 66] 0).bad = false ∧
      (word_next_break_full (fun _ => 0) [55, 66] 0).in_transaction = false) ∧
    ((sentence_next_break_full (fun _ => 0) [55, 66] 0).bad = false ∧
      (sentence_next_break_full (fun _ => 0) [55, 66] 0).in_transaction = false)) :=
  ⟨by decide,
    claim9_transaction_discipline (fun _ => 0) (fun _ => 0) (fun _ => 0) [55, 66] 0
      (by decide)⟩

/-- C3 counterexample: on the spec's own example text, with the sentence
categories of the ASCII characters modelled from the UCD, the first
sentence boundary from offset 0 is not 20.  (SB7 requires the uppercase
letter to follow the ATerm directly; the space after the abbreviation "Mr."
lets SB11 break, and even the boundary after "home." would be 21, past the
absorbed space, never 20.) -/
theorem claim3_counterexample :
    sentence_next_break sentenceCatAscii mrSmithText 0 ≠ 20 := by
  decide

/-- C3 amended: sentence_next_break("Mr. Smith went home. He slept.", 0)
returns 4 — the default UAX #29 algorithm breaks after the abbreviation
"Mr. " because the following uppercase letter does not directly follow the
ATerm (SB7 does not span the space), so SB11 breaks after absorbing the
space. -/
theorem claim3_amended :
    sentence_next_break sentenceCatAscii mrSmithText 0 = 4 := by
  decide

theorem hasCatGo_spec (catcat : Nat → Mask) (text : List Nat) (mask : Nat) :
    ∀ n s, hasCatGo catcat text mask s n = true ↔
      ∃ i, s ≤ i ∧ i < s + n ∧ catcat (text.getD i 0) &&& mask ≠ 0 := by
  intro n
  induction n with
  | zero =>
    intro s
    rw [hasCatGo]
    constructor
    · intro h
      exact absurd h (by simp)
    · intro ⟨i, h1, h2, _⟩
      omega
  | succ m ih =>
    intro s
    rw [hasCatGo]
    by_cases hc : catcat (text.getD s 0) &&& mask ≠ 0
    · rw [if_pos hc]
      constructor
      · intro _
        exact ⟨s, Nat.le_refl s, by omega, hc⟩
      · intro _
        rfl
    · rw [if_neg hc]
      rw [ih (s + 1)]
      constructor
      · intro ⟨i, h1, h2, h3⟩
        exact ⟨i, by omega, by omega, h3⟩
      · intro ⟨i, h1, h2, h3⟩
        refine ⟨i, ?_, by omega, h3⟩
        rcases Nat.eq_or_lt_of_le h1 with heq | hlt
        · exact absurd (heq ▸ h3) hc
        · exact hlt
  
/-- C8: has_category(text, start, end, mask) is true exactly when some
scalar at an index in `[start, end)` has a general category mask sharing a
bit with `mask`; it is false whenever `start ≥ end`. -/
theorem claim8_has_category (catcat : Nat → Mask) (text : List Nat)
    (start e mask : Nat) (hs : start ≤ text.length) (he : e ≤ text.length) :
    (has_category catcat text start e mask = true ↔
      ∃ i, start ≤ i ∧ i < e ∧ catcat (text.getD i 0) &&& mask ≠ 0) ∧
    (e ≤ start → has_category catcat text start e mask = false) := by
  constructor
  · rw [has_category, hasCatGo_spec]
    constructor
    · intro ⟨i, h1, h2, h3⟩
      exact ⟨i, h1, by omega, h3⟩
    · intro ⟨i, h1, h2, h3⟩
      exact ⟨i, h1, by omega, h3⟩
  · intro hle
    rw [has_category, show e - start = 0 from by omega, hasCatGo]

theorem claim8_has_category_witness :
    (0 ≤ ([97, 49] : List Nat).length ∧ 2 ≤ ([97, 49] : List Nat).length) ∧
    ((has_category (fun c => if 48 ≤ c ∧ c ≤ 57 then 4 else 1) [97, 49] 0 2 4 = true ↔
      ∃ i, 0 ≤ i ∧ i < 2 ∧
        (fun c => if 48 ≤ c ∧ c ≤ 57 then 4 else 1) (([97, 49] : List Nat).getD i 0) &&& 4 ≠ 0) ∧
    (2 ≤ 0 → has_category (fun c => if 48 ≤ c ∧ c ≤ 57 then 4 else 1) [97, 49] 0 2 4 = false)) :=
  ⟨⟨by decide, by decide⟩,
    claim8_has_category (fun c => if 48 ≤ c ∧ c ≤ 57 then 4 else 1) [97, 49] 0 2 4
      (by decide) (by decide)⟩

/-- C10: grapheme_substr returns the empty string on the early-out
conditions of unicode.c line 911: equal bounds, stop = 0, start beyond the
scalar length, or both bounds non-negative with start ≥ stop. -/
theorem claim10_substr_empty (cat : Nat → Mask) (text : List Nat)
    (start stop : Int)
    (h : start = stop ∨ stop = 0 ∨ start > (text.length : Int) ∨
      (0 ≤ start ∧ 0 ≤ stop ∧ stop ≤ start)) :
    grapheme_substr cat text start stop = [] := by
  rw [grapheme_substr, if_pos (by omega)]

theorem claim10_substr_empty_witness :
    ((2 : Int) = 1 ∨ (1 : Int) = 0 ∨ (2 : Int) > (([5] : List Nat).length : Int) ∨
      (0 ≤ (2 : Int) ∧ 0 ≤ (1 : Int) ∧ (1 : Int) ≤ 2)) ∧
    grapheme_substr (fun _ => 0) [5] 2 1 = [] :=
  ⟨by decide, claim10_substr_empty (fun _ => 0) [5] 2 1 (by decide)⟩

theorem casefold_ascii_no_upper (text : List Nat)
    (h : ∀ c ∈ text, isUpperAscii c = false) : casefold_ascii text = text := by
  rw [casefold_ascii, if_pos]
  rw [List.all_eq_true]
  intro c hc
  rw [h c hc]
  rfl

theorem casefold_ascii_eq_map (text : List Nat) :
    casefold_ascii text = text.map (fun c => if isUpperAscii c then c + 32 else c) := by
  rw [casefold_ascii]
  by_cases h : text.all (fun c => !isUpperAscii c) = true
  · rw [if_pos h]
    rw [List.all_eq_true] at h
    have : ∀ c ∈ text, (fun c => if isUpperAscii c then c + 32 else c) c = id c := by
      intro c hc
      have hc' := h c hc
      simp only [Bool.not_eq_true'] at hc'
      simp [hc']
    rw [List.map_congr_left this, List.map_id]
  · rw [if_neg h]

/-- C5: on an all-ASCII text, casefold maps the scalars `A..Z` to the
scalar 32 greater and leaves everything else; if the text has no uppercase
ASCII letter it is returned unchanged. -/
theorem claim5_casefold_ascii_path (fold1 : Nat → List Nat) (text : List Nat)
    (h : ∀ c ∈ text, c ≤ 127) :
    casefold fold1 text = text.map (fun c => if isUpperAscii c then c + 32 else c) ∧
    ((∀ c ∈ text, isUpperAscii c = false) → casefold fold1 text = text) := by
  have hall : text.all (fun c => decide (c ≤ 127)) = true := by
    rw [List.all_eq_true]
    intro c hc
    exact decide_eq_true (h c hc)
  rw [casefold, if_pos hall]
  exact ⟨casefold_ascii_eq_map text, casefold_ascii_no_upper text⟩

theorem claim5_casefold_ascii_path_witness :
    (∀ c ∈ ([72, 105, 33] : List Nat), c ≤ 127) ∧
    (casefold (fun c => [c]) [72, 105, 33] =
      ([72, 105, 33] : List Nat).map (fun c => if isUpperAscii c then c + 32 else c) ∧
    ((∀ c ∈ ([72, 105, 33] : List Nat), isUpperAscii c = false) →
      casefold (fun c => [c]) [72, 105, 33] = [72, 105, 33])) :=
  ⟨by decide, claim5_casefold_ascii_path (fun c => [c]) [72, 105, 33] (by decide)⟩

theorem mem_casefold_general {fold1 : Nat → List Nat} {text : List Nat} {d : Nat}
    (hd : d ∈ (text.map (foldChar fold1)).flatten) :
    ∃ c ∈ text, d ∈ foldChar fold1 c := by
  rw [List.mem_flatten] at hd
  obtain ⟨l, hl, hdl⟩ := hd
  rw [List.mem_map] at hl
  obtain ⟨c, hc, hcl⟩ := hl
  exact ⟨c, hc, hcl ▸ hdl⟩

theorem casefold_of_folded (fold1 : Nat → List Nat)
    (hinv : ∀ c d, d ∈ foldChar fold1 c → foldChar fold1 d = [d])
    (text : List Nat) (hR : ∀ d ∈ text, foldChar fold1 d = [d]) :
    casefold fold1 text = text := by
  have hnoup : ∀ d ∈ text, isUpperAscii d = false := by
    intro d hd
    by_contra hup
    rw [Bool.not_eq_false] at hup
    have := hR d hd
    rw [foldChar, if_pos hup] at this
    have : d + 32 = d := List.head_eq_of_cons_eq this
    omega
  by_cases hle : text.all (fun c => decide (c ≤ 127)) = true
  · rw [casefold, if_pos hle]
    exact casefold_ascii_no_upper text hnoup
  · rw [casefold, if_neg hle, if_pos]
    rw [List.all_eq_true]
    intro c hc
    exact decide_eq_true (hR c hc)

/-- C4: casefold is idempotent for every fold table whose outputs are
themselves fold-invariant — the property of the Unicode CaseFolding data
(statuses C+F) from which the generated table is produced (modelled from
the spec; `_unicodedb.c` is not in the sources). -/
theorem claim4_casefold_idempotent (fold1 : Nat → List Nat)
    (hinv : ∀ c d, d ∈ foldChar fold1 c → foldChar fold1 d = [d])
    (text : List Nat) :
    casefold fold1 (casefold fold1 text) = casefold fold1 text := by
  by_cases hle : text.all (fun c => decide (c ≤ 127)) = true
  · have hres : casefold fold1 text = casefold_ascii text := by
      rw [casefold, if_pos hle]
    rw [hres, casefold_ascii_eq_map]
    set R := text.map (fun c => if isUpperAscii c then c + 32 else c) with hRdef
    have hR127 : ∀ d ∈ R, d ≤ 127 := by
      intro d hd
      rw [hRdef, List.mem_map] at hd
      obtain ⟨c, hc, hcd⟩ := hd
      rw [List.all_eq_true] at hle
      have hc127 : c ≤ 127 := of_decide_eq_true (hle c hc)
      by_cases hup : isUpperAscii c = true
      · rw [← hcd, if_pos hup]
        rw [isUpperAscii, decide_eq_true_eq] at hup
        omega
      · rw [← hcd, if_neg hup]
        exact hc127
    have hRnoup : ∀ d ∈ R, isUpperAscii d = false := by
      intro d hd
      rw [hRdef, List.mem_map] at hd
      obtain ⟨c, hc, hcd⟩ := hd
      by_cases hup : isUpperAscii c = true
      · rw [← hcd, if_pos hup]
        rw [isUpperAscii, decide_eq_true_eq] at hup
        rw [isUpperAscii]
        simp only [decide_eq_false_iff_not]
        omega
      · rw [← hcd, if_neg hup]
        simp only [Bool.not_eq_true] at hup
        exact hup
    have hall : R.all (fun c => decide (c ≤ 127)) = true := by
      rw [List.all_eq_true]
      intro d hd
      exact decide_eq_true (hR127 d hd)
    rw [casefold, if_pos hall]
    exact casefold_ascii_no_upper R hRnoup
  · by_cases hch : text.all (fun c => decide (foldChar fold1 c = [c])) = true
    · have hres : casefold fold1 text = text := by
        rw [casefold, if_neg hle, if_pos hch]
      rw [hres]
      exact hres
    · have hres : casefold fold1 text = (text.map (foldChar fold1)).flatten := by
        rw [casefold, if_neg hle, if_neg hch]
      rw [hres]
      apply casefold_of_folded fold1 hinv
      intro d hd
      obtain ⟨c, hc, hdc⟩ := mem_casefold_general hd
      exact hinv c d hdc

theorem claim4_casefold_idempotent_witness :
    (∀ c d, d ∈ foldChar (fun c => if c = 181 then [956] else if c = 223 then [115, 115] else [c]) c →
      foldChar (fun c => if c = 181 then [956] else if c = 223 then [115, 115] else [c]) d = [d]) ∧
    casefold (fun c => if c = 181 then [956] else if c = 223 then [115, 115] else [c])
      (casefold (fun c => if c = 181 then [956] else if c = 223 then [115, 115] else [c])
        [83, 116, 114, 97, 223, 101]) =
    casefold (fun c => if c = 181 then [956] else if c = 223 then [115, 115] else [c])
      [83, 116, 114, 97, 223, 101] := by
  have hinv : ∀ c d, d ∈ foldChar (fun c => if c = 181 then [956] else if c = 223 then [115, 115] else [c]) c →
      foldChar (fun c => if c = 181 then [956] else if c = 223 then [115, 115] else [c]) d = [d] := by
    intro c d hd
    rw [foldChar] at hd
    by_cases hup : isUpperAscii c = true
    · rw [if_pos hup] at hd
      rw [List.mem_singleton] at hd
      subst hd
      rw [isUpperAscii, decide_eq_true_eq] at hup
      rw [foldChar, isUpperAscii, if_neg (by simp only [decide_eq_true_eq]; omega)]
      rw [if_neg (by omega), if_neg (by omega)]
    · rw [if_neg hup] at hd
      by_cases h181 : c = 181
      · rw [if_pos h181, List.mem_singleton] at hd
        subst hd
        decide
      · rw [if_neg h181] at hd
        by_cases h223 : c = 223
        · rw [if_pos h223] at hd
          simp only [List.mem_cons, List.not_mem_nil, or_false, or_self] at hd
          subst hd
          decide
        · rw [if_neg h223, List.mem_singleton] at hd
          subst hd
          rw [foldChar, if_neg hup, if_neg h181, if_neg h223]
  exact ⟨hinv, claim4_casefold_idempotent _ hinv [83, 116, 114, 97, 223, 101]⟩

theorem grapheme_next_break_bounds (cat : Nat → Mask) (text : List Nat)
    (o : Nat) (h : o < text.length) :
    o < grapheme_next_break cat text o ∧ grapheme_next_break cat text o ≤ text.length := by
  obtain ⟨g1, _, _, g4, _⟩ := graphemeFull_spec cat text o (Nat.le_of_lt h)
  exact ⟨g4 h, g1⟩

theorem graphemeIter_succ_left (cat : Nat → Mask) (text : List Nat) (o : Nat) :
    ∀ n, graphemeIter cat text o (n + 1) =
      graphemeIter cat text (grapheme_next_break cat text o) n := by
  intro n
  induction n with
  | zero => rfl
  | succ m ih =>
    show grapheme_next_break cat text (graphemeIter cat text o (m + 1)) = _
    rw [ih]
    rfl

theorem graphemeLenGo_spec (cat : Nat → Mask) (text : List Nat) :
    ∀ fuel o c, o ≤ text.length → text.length - o < fuel →
      ∃ k, graphemeLenGo cat text fuel o c = c + k ∧
        graphemeIter cat text o k = text.length ∧
        ∀ j, j < k → graphemeIter cat text o j < text.length := by
  intro fuel
  induction fuel with
  | zero =>
    intro o c _ hf
    exact absurd hf (by omega)
  | succ n ih =>
    intro o c hle hf
    by_cases ho : o < text.length
    · rw [graphemeLenGo, if_pos ho]
      obtain ⟨hb1, hb2⟩ := grapheme_next_break_bounds cat text o ho
      obtain ⟨k, h1, h2, h3⟩ := ih (grapheme_next_break cat text o) (c + 1) hb2 (by omega)
      refine ⟨k + 1, by omega, ?_, ?_⟩
      · rw [graphemeIter_succ_left]
        exact h2
      · intro j hj
        cases j with
        | zero => exact ho
        | succ m =>
          rw [graphemeIter_succ_left]
          exact h3 m (by omega)
    · rw [graphemeLenGo, if_neg ho]
      have : o = text.length := by omega
      exact ⟨0, by omega, this, fun j hj => absurd hj (by omega)⟩

theorem grapheme_length_boundaries (cat : Nat → Mask) (text : List Nat) :
    graphemeIter cat text 0 (grapheme_length cat text 0) = text.length ∧
    ∀ j, j < grapheme_length cat text 0 → graphemeIter cat text 0 j < text.length := by
  obtain ⟨k, h1, h2, h3⟩ := graphemeLenGo_spec cat text (text.length + 1) 0 0
    (Nat.zero_le _) (by omega)
  have : grapheme_length cat text 0 = k := by
    rw [grapheme_length, h1]
    omega
  rw [this]
  exact ⟨h2, h3⟩

theorem graphemeIter_step (cat : Nat → Mask) (text : List Nat) (j : Nat)
    (hj : j < grapheme_length cat text 0) :
    graphemeIter cat text 0 j < graphemeIter cat text 0 (j + 1) ∧
    graphemeIter cat text 0 (j + 1) ≤ text.length := by
  have hlt := (grapheme_length_boundaries cat text).2 j hj
  obtain ⟨h1, h2⟩ := grapheme_next_break_bounds cat text (graphemeIter cat text 0 j) hlt
  exact ⟨h1, h2⟩

theorem graphemeIter_mono (cat : Nat → Mask) (text : List Nat) :
    ∀ m n, n ≤ m → m ≤ grapheme_length cat text 0 →
      graphemeIter cat text 0 n ≤ graphemeIter cat text 0 m := by
  intro m
  induction m with
  | zero =>
    intro n hn _
    rw [Nat.le_zero.mp hn]
  | succ p ih =>
    intro n hn hm
    rcases Nat.eq_or_lt_of_le hn with heq | hlt
    · rw [heq]
    · have h1 : graphemeIter cat text 0 n ≤ graphemeIter cat text 0 p :=
        ih n (by omega) (by omega)
      have h2 := (graphemeIter_step cat text p (by omega)).1
      omega

theorem graphemeIter_ge_index (cat : Nat → Mask) (text : List Nat) :
    ∀ n, n ≤ grapheme_length cat text 0 → n ≤ graphemeIter cat text 0 n := by
  intro n
  induction n with
  | zero => intro _; exact Nat.zero_le _
  | succ p ih =>
    intro hp
    have h1 := ih (by omega)
    have h2 := (graphemeIter_step cat text p (by omega)).1
    omega

theorem grapheme_length_le_length (cat : Nat → Mask) (text : List Nat) :
    grapheme_length cat text 0 ≤ text.length := by
  have h1 := graphemeIter_ge_index cat text (grapheme_length cat text 0) (Nat.le_refl _)
  have h2 := (grapheme_length_boundaries cat text).1
  omega

theorem substrLoop_nonneg_spec (cat : Nat → Mask) (text : List Nat) (i j : Nat)
    (hij : i < j) (hj : j ≤ grapheme_length cat text 0) :
    ∀ fuel cnt so eo offs, cnt < j →
      text.length - graphemeIter cat text 0 cnt < fuel →
      ((i ≤ cnt ∨ i = 0) → so = graphemeIter cat text 0 i) →
      (¬(i ≤ cnt ∨ i = 0) → so = text.length) →
      substrLoop cat text (i : Int) (j : Int) false fuel
          (graphemeIter cat text 0 cnt) cnt so eo offs =
        (graphemeIter cat text 0 i, graphemeIter cat text 0 j, offs) := by
  intro fuel
  induction fuel with
  | zero =>
    intro cnt so eo offs _ hf
    exact absurd hf (by omega)
  | succ n ih =>
    intro cnt so eo offs hcnt hf hso1 hso2
    have hlt : graphemeIter cat text 0 cnt < text.length :=
      (grapheme_length_boundaries cat text).2 cnt (by omega)
    rw [substrLoop, if_pos hlt]
    have hstep := (graphemeIter_step cat text cnt (by omega)).1
    simp only [Bool.false_eq_true, if_false, and_true]
    have htb : grapheme_next_break cat text (graphemeIter cat text 0 cnt) =
        graphemeIter cat text 0 (cnt + 1) := rfl
    by_cases hjc : (j : Int) = ((cnt + 1 : Nat) : Int)
    · have hj' : j = cnt + 1 := by exact_mod_cast hjc
      rw [if_pos hjc]
      have hic : ¬((i : Int) = ((cnt + 1 : Nat) : Int)) := by
        rw [Int.natCast_inj]
        omega
      rw [if_neg hic, htb]
      have hso : so = graphemeIter cat text 0 i := hso1 (by omega)
      rw [hso, hj', if_pos rfl]
    · rw [if_neg hjc]
      have hj'' : cnt + 1 < j := by
        have : ¬(j = cnt + 1) := by
          intro hcon
          exact hjc (by exact_mod_cast congrArg (Nat.cast : Nat → Int) hcon)
        omega
      rw [htb]
      by_cases hic : (i : Int) = ((cnt + 1 : Nat) : Int)
      · have hi' : i = cnt + 1 := by exact_mod_cast hic
        rw [if_pos hic]
        exact ih (cnt + 1) _ _ offs hj'' (by omega)
          (fun _ => by rw [hi']) (fun hcon => absurd (Or.inl (by omega)) hcon)
      · rw [if_neg hic]
        have hine : ¬(i = cnt + 1) := by
          intro hcon
          exact hic (by exact_mod_cast congrArg (Nat.cast : Nat → Int) hcon)
        exact ih (cnt + 1) _ _ offs hj'' (by omega)
          (fun hc => hso1 (by omega)) (fun hc => hso2 (by omega))

theorem grapheme_substr_nonneg (cat : Nat → Mask) (text : List Nat) (i j : Nat)
    (hij : i ≤ j) (hj : j ≤ grapheme_length cat text 0) :
    grapheme_substr cat text (i : Int) (j : Int) =
      listSlice text (graphemeIter cat text 0 i) (graphemeIter cat text 0 j) := by
  rcases Nat.eq_or_lt_of_le hij with heq | hlt
  · subst heq
    rw [grapheme_substr, if_pos (Or.inr (Or.inl rfl)), listSlice, Nat.sub_self]
    rw [List.take_zero]
  · have hnumlen := grapheme_length_le_length cat text
    have hearly : ¬((i : Int) > (text.length : Int) ∨ (i : Int) = (j : Int) ∨
        (j : Int) = 0 ∨ (0 < (i : Int) ∧ 0 ≤ (j : Int) ∧ (j : Int) ≤ (i : Int))) := by
      omega
    rw [grapheme_substr, if_neg hearly]
    have huse : decide ((i : Int) < 0 ∨ (j : Int) < 0) = false := by
      simp only [decide_eq_false_iff_not]
      push_neg
      exact ⟨Int.natCast_nonneg i, Int.natCast_nonneg j⟩
    simp only [huse, Bool.false_eq_true, if_false]
    have hin : (if (i : Int) = 0 then (0 : Nat) else text.length) =
        (if i ≤ 0 ∨ i = 0 then graphemeIter cat text 0 i else text.length) := by
      by_cases hi0 : i = 0
      · rw [if_pos (by exact_mod_cast congrArg (Nat.cast : Nat → Int) hi0),
          if_pos (Or.inr hi0), hi0]
        rfl
      · rw [if_neg ?_, if_neg ?_]
        · intro hcon
          rcases hcon with hcon | hcon
          · exact hi0 (by omega)
          · exact hi0 hcon
        · intro hcon
          have : i = 0 := by exact_mod_cast hcon
          exact hi0 this
    rw [hin]
    have := substrLoop_nonneg_spec cat text i j hlt hj (text.length + 1) 0
      (if i ≤ 0 ∨ i = 0 then graphemeIter cat text 0 i else text.length)
      text.length [] (by omega) (by simp only [graphemeIter]; omega)
      (fun hc => by rw [if_pos (by omega)]) (fun hc => by rw [if_neg hc])
    have hzero : graphemeIter cat text 0 0 = 0 := rfl
    rw [hzero] at this
    rw [this]

theorem listSlice_append (l : List Nat) (a b c : Nat) (hab : a ≤ b) (hbc : b ≤ c) :
    listSlice l a b ++ listSlice l b c = listSlice l a c := by
  rw [listSlice, listSlice, listSlice]
  rw [show c - a = (b - a) + (c - b) from by omega, List.take_add]
  congr 1
  rw [List.drop_drop]
  rw [show a + (b - a) = b from by omega]

/-- C7: grapheme-indexed substrings compose: for grapheme indices
`i ≤ j ≤ k` valid for the text, substr(T, i, j) ++ substr(T, j, k) equals
substr(T, i, k). -/
theorem claim7_substr_concat (cat : Nat → Mask) (text : List Nat) (i j k : Nat)
    (hij : i ≤ j) (hjk : j ≤ k) (hk : k ≤ grapheme_length cat text 0) :
    grapheme_substr cat text (i : Int) (j : Int) ++
      grapheme_substr cat text (j : Int) (k : Int) =
    grapheme_substr cat text (i : Int) (k : Int) := by
  rw [grapheme_substr_nonneg cat text i j hij (by omega),
    grapheme_substr_nonneg cat text j k hjk hk,
    grapheme_substr_nonneg cat text i k (by omega) hk]
  exact listSlice_append text _ _ _
    (graphemeIter_mono cat text j i hij (by omega))
    (graphemeIter_mono cat text k j hjk hk)

theorem claim7_substr_concat_witness :
    (0 ≤ 1 ∧ 1 ≤ 2 ∧ 2 ≤ grapheme_length (fun _ => 0) [10, 20, 30] 0) ∧
    grapheme_substr (fun _ => 0) [10, 20, 30] ((0 : Nat) : Int) ((1 : Nat) : Int) ++
      grapheme_substr (fun _ => 0) [10, 20, 30] ((1 : Nat) : Int) ((2 : Nat) : Int) =
    grapheme_substr (fun _ => 0) [10, 20, 30] ((0 : Nat) : Int) ((2 : Nat) : Int) :=
  ⟨⟨by decide, by decide, by decide⟩,
    claim7_substr_concat (fun _ => 0) [10, 20, 30] 0 1 2 (by decide) (by decide)
      (by decide)⟩

theorem incbRunEnd_spec (cat : Nat → Mask) (text : List Nat) :
    ∀ fuel p, p ≤ text.length → text.length - p < fuel →
      p ≤ incbRunEnd cat text fuel p ∧
      incbRunEnd cat text fuel p ≤ text.length ∧
      catAt cat text (incbRunEnd cat text fuel p) &&&
        (GC_InCB_Extend ||| GC_InCB_Linker) = 0 ∧
      ∀ r, p ≤ r → r < incbRunEnd cat text fuel p →
        catAt cat text r &&& (GC_InCB_Extend ||| GC_InCB_Linker) ≠ 0 := by
  intro fuel
  induction fuel with
  | zero =>
    intro p _ hf
    exact absurd hf (by omega)
  | succ n ih =>
    intro p hp hf
    by_cases hc : catAt cat text p &&& (GC_InCB_Extend ||| GC_InCB_Linker) ≠ 0
    · have hne : catAt cat text p ≠ 0 := and_ne_zero_left hc
      have hplt : p < text.length := by
        rcases Nat.eq_or_lt_of_le hp with heq | hlt
        · rw [heq, catAt_length] at hne
          exact absurd rfl hne
        · exact hlt
      rw [incbRunEnd, if_pos hc]
      obtain ⟨i1, i2, i3, i4⟩ := ih (p + 1) (by omega) (by omega)
      refine ⟨by omega, i2, i3, ?_⟩
      intro r hr1 hr2
      rcases Nat.eq_or_lt_of_le hr1 with heq | hlt
      · rw [← heq]
        exact hc
      · exact i4 r (by omega) hr2
    · rw [incbRunEnd, if_neg hc]
      rw [not_ne_iff] at hc
      exact ⟨Nat.le_refl p, hp, hc, fun r h1 h2 => absurd (Nat.lt_of_le_of_lt h1 h2)
        (Nat.lt_irrefl p)⟩

theorem firstNonRun_unique (cat : Nat → Mask) (text : List Nat) (p q1 q2 : Nat)
    (h1a : p ≤ q1)
    (h1b : catAt cat text q1 &&& (GC_InCB_Extend ||| GC_InCB_Linker) = 0)
    (h1c : ∀ r, p ≤ r → r < q1 →
      catAt cat text r &&& (GC_InCB_Extend ||| GC_InCB_Linker) ≠ 0)
    (h2a : p ≤ q2)
    (h2b : catAt cat text q2 &&& (GC_InCB_Extend ||| GC_InCB_Linker) = 0)
    (h2c : ∀ r, p ≤ r → r < q2 →
      catAt cat text r &&& (GC_InCB_Extend ||| GC_InCB_Linker) ≠ 0) :
    q1 = q2 := by
  rcases Nat.lt_trichotomy q1 q2 with h | h | h
  · exact absurd h1b (h2c q1 h1a h)
  · exact h
  · exact absurd h2b (h1c q2 h2a h)

theorem gb9cScan_exact (cat : Nat → Mask) (text : List Nat) :
    ∀ fuel seen it, Inv cat text it → text.length - it.pos < fuel →
      ∃ q, (gb9cScan cat text fuel seen it).2.pos = q ∧
        it.pos ≤ q ∧ q ≤ text.length ∧
        catAt cat text q &&& (GC_InCB_Extend ||| GC_InCB_Linker) = 0 ∧
        (∀ r, it.pos ≤ r → r < q →
          catAt cat text r &&& (GC_InCB_Extend ||| GC_InCB_Linker) ≠ 0) ∧
        ((gb9cScan cat text fuel seen it).1 = true ↔
          seen = true ∨ incbLinkerIn cat text it.pos q) := by
  intro fuel
  induction fuel with
  | zero =>
    intro seen it _ hf
    exact absurd hf (by omega)
  | succ n ih =>
    intro seen it hinv hf
    by_cases hc : it.lookahead &&& (GC_InCB_Extend ||| GC_InCB_Linker) ≠ 0
    · have hplt : it.pos < text.length :=
        pos_lt_of_lookahead hinv (and_ne_zero_left hc)
      have hcat : catAt cat text it.pos &&& (GC_InCB_Extend ||| GC_InCB_Linker) ≠ 0 := by
        rw [← hinv.2]
        exact hc
      rw [gb9cScan, if_pos hc]
      have hadv : Inv cat text (it_advance cat text it) := inv_advance hplt
      obtain ⟨q, g1, g2, g3, g4, g5, g6⟩ := ih
        (seen || (it.lookahead &&& GC_InCB_Linker ≠ 0)) (it_advance cat text it)
        hadv (by
          have : (it_advance cat text it).pos = it.pos + 1 := rfl
          omega)
      have hps : (it_advance cat text it).pos = it.pos + 1 := rfl
      rw [hps] at g2 g5 g6
      refine ⟨q, g1, by omega, g3, g4, ?_, ?_⟩
      · intro r h1 h2
        rcases Nat.eq_or_lt_of_le h1 with heq | hlt
        · rw [← heq]
          exact hcat
        · exact g5 r (by omega) h2
      · rw [g6]
        constructor
        · intro h
          rcases h with h | h
          · rw [Bool.or_eq_true] at h
            rcases h with h | h
            · exact Or.inl h
            · refine Or.inr ⟨it.pos, ?_, Nat.le_refl _, ?_⟩
              · have hq1 : it.pos + 1 ≤ q := g2
                omega
              · rw [← hinv.2]
                rw [decide_eq_true_eq] at h
                exact h
          · obtain ⟨r, hr1, hr2, hr3⟩ := h
            exact Or.inr ⟨r, hr1, by omega, hr3⟩
        · intro h
          rcases h with h | h
          · exact Or.inl (by rw [Bool.or_eq_true]; exact Or.inl h)
          · obtain ⟨r, hr1, hr2, hr3⟩ := h
            rcases Nat.eq_or_lt_of_le hr2 with heq | hlt
            · refine Or.inl ?_
              rw [Bool.or_eq_true]
              refine Or.inr ?_
              rw [decide_eq_true_eq, hinv.2, heq]
              exact hr3
            · exact Or.inr ⟨r, hr1, by omega, hr3⟩
    · rw [gb9cScan, if_neg hc]
      rw [not_ne_iff] at hc
      refine ⟨it.pos, rfl, Nat.le_refl _, hinv.1, by rw [← hinv.2]; exact hc,
        fun r h1 h2 => absurd (Nat.lt_of_le_of_lt h1 h2) (Nat.lt_irrefl it.pos), ?_⟩
      constructor
      · exact fun h => Or.inl h
      · intro h
        rcases h with h | h
        · exact h
        · obtain ⟨r, hr1, hr2, _⟩ := h
          omega

/-- C6: characterisation of rule GB9c.  When the rule is entered (curchar
is InCB_Consonant with an `InCB_Extend | InCB_Linker` lookahead) and the
run of `InCB_Extend | InCB_Linker` characters starting at the current
position contains at least one InCB_Linker and is followed directly by an
InCB_Consonant, the rule commits and continues past the run (the result is
a continue whose position is the end of the run, so no boundary is
reported inside the sequence).  In every other case — the rule not entered,
no linker in the run, or no consonant after it — the rule falls through
with the iterator state `(pos, curchar, lookahead)` restored exactly, and
the later rules decide. -/
theorem claim6_gb9c_rule (cat : Nat → Mask) (text : List Nat) (it : TextIterator)
    (hinv : Inv cat text it) (hb : it.bad = false) (ht : it.in_transaction = false) :
    (¬(it.curchar &&& GC_InCB_Consonant ≠ 0 ∧
        it.lookahead &&& (GC_InCB_Extend ||| GC_InCB_Linker) ≠ 0) →
      gb9cTry cat text it = .inr it) ∧
    ((it.curchar &&& GC_InCB_Consonant ≠ 0 ∧
        it.lookahead &&& (GC_InCB_Extend ||| GC_InCB_Linker) ≠ 0) →
      ((incbLinkerIn cat text it.pos (incbRunEnd cat text (text.length + 1) it.pos) ∧
          catAt cat text (incbRunEnd cat text (text.length + 1) it.pos) &&&
            GC_InCB_Consonant ≠ 0) →
        ∃ it', gb9cTry cat text it = .inl it' ∧
          it'.pos = incbRunEnd cat text (text.length + 1) it.pos ∧ it.pos < it'.pos) ∧
      (¬(incbLinkerIn cat text it.pos (incbRunEnd cat text (text.length + 1) it.pos) ∧
          catAt cat text (incbRunEnd cat text (text.length + 1) it.pos) &&&
            GC_InCB_Consonant ≠ 0) →
        ∃ it', gb9cTry cat text it = .inr it' ∧ it'.pos = it.pos ∧
          it'.curchar = it.curchar ∧ it'.lookahead = it.lookahead)) := by
  constructor
  · intro hnc
    rw [gb9cTry, if_neg hnc]
  · intro hc
    have hplt : it.pos < text.length := pos_lt_of_lookahead hinv (and_ne_zero_left hc.2)
    have hcat : catAt cat text it.pos &&& (GC_InCB_Extend ||| GC_InCB_Linker) ≠ 0 := by
      rw [← hinv.2]
      exact hc.2
    have hadv : Inv cat text (it_advance cat text (it_begin it)) := inv_advance hplt
    have hpadv : (it_advance cat text (it_begin it)).pos = it.pos + 1 := rfl
    obtain ⟨q, g1, g2, g3, g4, g5, g6⟩ := gb9cScan_exact cat text (text.length + 1)
      (decide ((it_begin it).lookahead &&& GC_InCB_Linker ≠ 0))
      (it_advance cat text (it_begin it)) hadv (by omega)
    rw [hpadv] at g2 g5 g6
    obtain ⟨e1, e2, e3, e4⟩ := incbRunEnd_spec cat text (text.length + 1) it.pos
      (Nat.le_of_lt hplt) (by omega)
    have hquniq : q = incbRunEnd cat text (text.length + 1) it.pos := by
      refine firstNonRun_unique cat text it.pos q
        (incbRunEnd cat text (text.length + 1) it.pos) (by omega) g4 ?_ e1 e3 e4
      intro r h1 h2
      rcases Nat.eq_or_lt_of_le h1 with heq | hlt
      · rw [← heq]
        exact hcat
      · exact g5 r (by omega) h2
    have hqgt : it.pos < q := by
      rcases Nat.eq_or_lt_of_le (g2.trans (Nat.le_refl q)) with _ | _
      · omega
      · omega
    have hlinkiff : (gb9cScan cat text (text.length + 1)
        (decide ((it_begin it).lookahead &&& GC_InCB_Linker ≠ 0))
        (it_advance cat text (it_begin it))).1 = true ↔
        incbLinkerIn cat text it.pos q := by
      rw [g6]
      constructor
      · intro h
        rcases h with h | h
        · rw [decide_eq_true_eq] at h
          refine ⟨it.pos, by omega, Nat.le_refl _, ?_⟩
          rw [← hinv.2]
          exact h
        · obtain ⟨r, hr1, hr2, hr3⟩ := h
          exact ⟨r, hr1, by omega, hr3⟩
      · intro h
        obtain ⟨r, hr1, hr2, hr3⟩ := h
        rcases Nat.eq_or_lt_of_le hr2 with heq | hlt
        · refine Or.inl ?_
          rw [decide_eq_true_eq]
          show it.lookahead &&& GC_InCB_Linker ≠ 0
          rw [hinv.2, heq]
          exact hr3
        · exact Or.inr ⟨r, hr1, by omega, hr3⟩
    obtain ⟨s1, s2, s3⟩ := gb9cScan_coarse cat text (text.length + 1)
      (decide ((it_begin it).lookahead &&& GC_InCB_Linker ≠ 0))
      (it_advance cat text (it_begin it)) hadv
    have hfr : FrameEq (it_begin it)
        (gb9cScan cat text (text.length + 1)
          (decide ((it_begin it).lookahead &&& GC_InCB_Linker ≠ 0))
          (it_advance cat text (it_begin it))).2 :=
      frameEq_trans (frameEq_advance cat text (it_begin it)) s3
    have hlook : (gb9cScan cat text (text.length + 1)
        (decide ((it_begin it).lookahead &&& GC_InCB_Linker ≠ 0))
        (it_advance cat text (it_begin it))).2.lookahead = catAt cat text q := by
      rw [s1.2, g1]
    constructor
    · intro ⟨hlk, hcons⟩
      rw [gb9cTry, if_pos hc]
      refine ⟨it_commit (gb9cScan cat text (text.length + 1)
        (decide ((it_begin it).lookahead &&& GC_InCB_Linker ≠ 0))
        (it_advance cat text (it_begin it))).2, ?_, ?_, ?_⟩
      · rw [if_pos ?_]
        refine ⟨hlinkiff.mpr (hquniq ▸ hlk), ?_⟩
        rw [hlook, hquniq]
        exact hcons
      · show (gb9cScan cat text (text.length + 1)
          (decide ((it_begin it).lookahead &&& GC_InCB_Linker ≠ 0))
          (it_advance cat text (it_begin it))).2.pos = _
        rw [g1, hquniq]
      · show it.pos < (gb9cScan cat text (text.length + 1)
          (decide ((it_begin it).lookahead &&& GC_InCB_Linker ≠ 0))
          (it_advance cat text (it_begin it))).2.pos
        rw [g1]
        exact hqgt
    · intro hneg
      rw [gb9cTry, if_pos hc]
      have hcond : ¬((gb9cScan cat text (text.length + 1)
          (decide ((it_begin it).lookahead &&& GC_InCB_Linker ≠ 0))
          (it_advance cat text (it_begin it))).1 = true ∧
          (gb9cScan cat text (text.length + 1)
          (decide ((it_begin it).lookahead &&& GC_InCB_Linker ≠ 0))
          (it_advance cat text (it_begin it))).2.lookahead &&&
            GC_InCB_Consonant ≠ 0) := by
        intro ⟨hx, hy⟩
        refine hneg ⟨hquniq ▸ hlinkiff.mp hx, ?_⟩
        rw [← hquniq]
        rw [hlook] at hy
        exact hy
      rw [if_neg hcond]
      obtain ⟨r1, r2, r3, r4, r5⟩ := rollback_ok hfr hb ht
      exact ⟨it_rollback _, rfl, r1, r2, r3⟩

theorem claim6_gb9c_rule_witness :
    (Inv gb9cDemoCat gb9cDemoText gb9cDemoIt ∧ gb9cDemoIt.bad = false ∧
      gb9cDemoIt.in_transaction = false) ∧
    ((¬(gb9cDemoIt.curchar &&& GC_InCB_Consonant ≠ 0 ∧
        gb9cDemoIt.lookahead &&& (GC_InCB_Extend ||| GC_InCB_Linker) ≠ 0) →
      gb9cTry gb9cDemoCat gb9cDemoText gb9cDemoIt = .inr gb9cDemoIt) ∧
    ((gb9cDemoIt.curchar &&& GC_InCB_Consonant ≠ 0 ∧
        gb9cDemoIt.lookahead &&& (GC_InCB_Extend ||| GC_InCB_Linker) ≠ 0) →
      ((incbLinkerIn gb9cDemoCat gb9cDemoText gb9cDemoIt.pos
          (incbRunEnd gb9cDemoCat gb9cDemoText (gb9cDemoText.length + 1) gb9cDemoIt.pos) ∧
          catAt gb9cDemoCat gb9cDemoText
            (incbRunEnd gb9cDemoCat gb9cDemoText (gb9cDemoText.length + 1) gb9cDemoIt.pos) &&&
            GC_InCB_Consonant ≠ 0) →
        ∃ it', gb9cTry gb9cDemoCat gb9cDemoText gb9cDemoIt = .inl it' ∧
          it'.pos = incbRunEnd gb9cDemoCat gb9cDemoText (gb9cDemoText.length + 1)
            gb9cDemoIt.pos ∧ gb9cDemoIt.pos < it'.pos) ∧
      (¬(incbLinkerIn gb9cDemoCat gb9cDemoText gb9cDemoIt.pos
          (incbRunEnd gb9cDemoCat gb9cDemoText (gb9cDemoText.length + 1) gb9cDemoIt.pos) ∧
          catAt gb9cDemoCat gb9cDemoText
            (incbRunEnd gb9cDemoCat gb9cDemoText (gb9cDemoText.length + 1) gb9cDemoIt.pos) &&&
            GC_InCB_Consonant ≠ 0) →
        ∃ it', gb9cTry gb9cDemoCat gb9cDemoText gb9cDemoIt = .inr it' ∧
          it'.pos = gb9cDemoIt.pos ∧ it'.curchar = gb9cDemoIt.curchar ∧
          it'.lookahead = gb9cDemoIt.lookahead))) :=
  ⟨⟨by decide, rfl, rfl⟩,
    claim6_gb9c_rule gb9cDemoCat gb9cDemoText gb9cDemoIt (by decide) rfl rfl⟩

end Apsw
